import Mathlib

/-!
The ctx language core: value model, scope chain and evaluation protocol.

A shallow embedding of `src/ast.hpp`, `src/ast.cpp` and `src/main.cpp`.

Modelling decisions, all visible in the definitions below:

* `std::runtime_error` is represented by its message (`Error := String`), so the
  six failure classes of the program are the six message texts of the source.
* An output stream only ever grows, so a `print` is represented by what it wrote
  and whether it threw (`Written`); text written before a throw is kept.
* `Scope&` is a mutable reference and `std::cout` is global, so both are threaded
  through evaluation as a `World`; a scope is a value that contains its parent.
* A `ValueRef` held by running code is a `Reference`.  Every `ValueRef` the program
  makes shares ownership (`owned`), except the one `Tuple::evaluate` makes for an
  empty tuple, `std::shared_ptr<const Tuple>(this)`: a second, independent owner
  of a tuple that its container already owns (`thisEmptyTuple`).  When the local
  variable holding it is destroyed, on return or while an exception passes, the
  tuple is deleted a second time and the process is aborted (`release`,
  `Result.abort`).
* `std::function` members cannot be stored inside an inductive value (the value
  type would occur negatively), so a `BuiltinFunction` stores a handle and the
  table `Host.function` gives each handle its behaviour.  A behaviour receives
  the evaluator it may call back into.
* Host behaviours may loop, so `evaluate` takes a bound on the nesting depth of
  applications; atoms, identifiers and the empty tuple need none.
* The optional `Location` of an `Expression` is never set by any constructor and
  never read, and is left out.
* The text produced by the iostream formatting of `float` and `double` is a
  parameter (`Format`).
* `os << n` for a 16-, 32- or 64-bit integer type writes the decimal numeral, given
  here by `toString`; for `int8_t` and `uint8_t`, which are character types, it
  writes the character itself (`putChar`).
-/

namespace ctxlang

/-- Message carried by a thrown `std::runtime_error`. -/
abbrev Error := String

/-- Class `Identifier`, seen as the member data `Function` and `Scope::lookup` use. -/
structure Identifier where
  name : String

/-- Class `Value` and the classes derived from it.  `plain` is an object of class
`Value`, `Expression` or `Atom` itself, which overrides no method.  `value` of an
`integer` is the number held by the union member the constructor wrote; `value` of a
`floatingPoint` is the stored bit pattern; `function` of a `builtinFunction` is the
handle of its `std::function`. -/
inductive Value where
  | plain
  | integer (bits : Nat) (is_signed : Bool) (value : Int)
  | floatingPoint (bits : Nat) (value : Nat)
  | string (contents : String)
  | keyword (name : String)
  | identifier (name : String)
  | tuple (elements : List Value)
  | function (name : Identifier) (argument_names : List Identifier)
  | builtinFunction (name : Identifier) (argument_names : List Identifier) (function : Nat)

/-- Contents of a `std::map<std::string, ValueRef>`. -/
abbrev Bindings := List (String × Value)

/-- Member `std::map::find`: the value stored under a key, if any. -/
def Bindings.find (name : String) : Bindings → Option Value
  | [] => none
  | (key, value) :: rest => if key = name then some value else Bindings.find name rest

/-- Assignment `bindings[name] = value`: overwrite the entry of an existing key,
insert otherwise. -/
def Bindings.assign (name : String) (value : Value) : Bindings → Bindings
  | [] => [(name, value)]
  | (key, old) :: rest =>
    if key = name then (key, value) :: rest else (key, old) :: Bindings.assign name value rest

/-- Class `Scope`: a parent (absent for the root) and the bindings of this frame. -/
inductive Scope where
  | mk (parent : Option Scope) (bindings : Bindings)

/-- Member `parent`. -/
def Scope.parent : Scope → Option Scope
  | .mk parent _ => parent

/-- Member `bindings`. -/
def Scope.bindings : Scope → Bindings
  | .mk _ bindings => bindings

/-- Method `Scope::lookup` of `ast.cpp`. -/
def Scope.lookup : Scope → String → Option Value
  | .mk parent bindings, name =>
    match Bindings.find name bindings with
    | some value => some value
    | none =>
      match parent with
      | some p => p.lookup name
      | none => none

/-- Statement `scope.bindings[name] = value` as used by `main` to register a builtin. -/
def Scope.bind : Scope → String → Value → Scope
  | .mk parent bindings, name, value => .mk parent (Bindings.assign name value bindings)

/-- Scopes reached by following `parent`, nearest first, the scope itself excluded. -/
def Scope.ancestors : Scope → List Scope
  | .mk none _ => []
  | .mk (some p) _ => p :: p.ancestors

/-- Scope chain searched by a lookup: the scope itself, then its ancestors. -/
def Scope.chain (s : Scope) : List Scope := s :: s.ancestors

/-- Effect of a `print` on a stream: the text appended, and the message of the
exception that ended it, if one was thrown. -/
structure Written where
  text : String
  failure : Option Error

/-- Statement `os << text`. -/
def Written.put (text : String) : Written := ⟨text, none⟩

/-- Statement `throw std::runtime_error(message)` inside a `print`. -/
def Written.raise (message : Error) : Written := ⟨"", some message⟩

/-- Sequencing of two stream statements: the second runs unless the first threw. -/
def Written.andThen (a b : Written) : Written :=
  match a.failure with
  | some e => ⟨a.text, some e⟩
  | none => ⟨a.text ++ b.text, b.failure⟩

/-- Text the iostream library produces for a `float` and for a `double`, given the
stored bit pattern. -/
structure Format where
  float32 : Nat → String
  float64 : Nat → String

/-- Number read through a signed union member of the given width. -/
def readSigned (bits : Nat) (value : Int) : Int :=
  (value + 2 ^ (bits - 1)) % 2 ^ bits - 2 ^ (bits - 1)

/-- Number read through an unsigned union member of the given width. -/
def readUnsigned (bits : Nat) (value : Int) : Int :=
  value % 2 ^ bits

/-- Text of `os << c` for a `signed char` or `unsigned char`: the stream inserts the
character itself, here the character whose code is the byte. -/
def putChar (value : Int) : Written :=
  Written.put (String.singleton (Char.ofNat (value % 256).toNat))

mutual
/-- Method `print` of `Value` and of every class derived from it. -/
def print (F : Format) : Value → Written
  | .plain => Written.raise "Print not implemented"
  | .integer bits is_signed value =>
    if is_signed then
      if bits = 8 then putChar (readSigned 8 value)
      else if bits = 16 then Written.put (toString (readSigned 16 value))
      else if bits = 32 then Written.put (toString (readSigned 32 value))
      else if bits = 64 then Written.put (toString (readSigned 64 value))
      else Written.raise "Invalid number of bits"
    else
      if bits = 8 then putChar (readUnsigned 8 value)
      else if bits = 16 then Written.put (toString (readUnsigned 16 value))
      else if bits = 32 then Written.put (toString (readUnsigned 32 value))
      else if bits = 64 then Written.put (toString (readUnsigned 64 value))
      else Written.raise "Invalid number of bits"
  | .floatingPoint bits value =>
    if bits = 32 then Written.put (F.float32 value)
    else if bits = 64 then Written.put (F.float64 value)
    else Written.raise "Invalid number of bits"
  | .string contents =>
    (Written.put "\"").andThen ((Written.put contents).andThen (Written.put "\""))
  | .keyword name => (Written.put ":").andThen (Written.put name)
  | .identifier name => Written.put name
  | .tuple [] => (Written.put "(").andThen (Written.put ")")
  | .tuple (first :: rest) =>
    (Written.put "(").andThen
      ((print F first).andThen ((printRest F rest).andThen (Written.put ")")))
  | .function name _ =>
    (Written.put "<function \"").andThen ((Written.put name.name).andThen (Written.put "\">"))
  | .builtinFunction name _ _ =>
    (Written.put "<function \"").andThen ((Written.put name.name).andThen (Written.put "\">"))
/-- Loop `for(size_t i = 1; i < elements.size(); ++i) os << " " << *elements[i];`
of `Tuple::print`, over the elements after the first. -/
def printRest (F : Format) : List Value → Written
  | [] => Written.put ""
  | element :: rest =>
    (Written.put " ").andThen ((print F element).andThen (printRest F rest))
end

/-- Mutable state an evaluation runs against: the scope passed by reference and the
text written to `std::cout` so far. -/
structure World where
  scope : Scope
  cout : String

/-- How an evaluation, a call or the program ends: it returns, an exception with the
given message leaves it, or the process is aborted. -/
inductive Result (α : Type) where
  | ok (value : α)
  | error (message : Error)
  | abort

/-- A `ValueRef` held by running code.  `owned` shares ownership with every other
holder of the value: it comes from `std::make_shared` or is a copy of a `ValueRef`.
`thisEmptyTuple` is the pointer `std::shared_ptr<const Tuple>(this)` that
`Tuple::evaluate` returns for an empty tuple: a second, independent owner of a tuple
that the enclosing container already owns. -/
inductive Reference where
  | owned (value : Value)
  | thisEmptyTuple

/-- Object a `ValueRef` points to. -/
def Reference.value : Reference → Value
  | .owned value => value
  | .thisEmptyTuple => .tuple []

/-- Result of a terminated evaluation or call: the returned reference, the thrown
message or the abort, and the state it left. -/
abbrev Outcome := Result Reference × World

/-- Destruction of a local `ValueRef` when the function that holds it is left, after it
computed the given outcome or while an exception passes through it.  Releasing the
second owner deletes a tuple that is still owned elsewhere, which aborts the process;
what was written before stays written. -/
def release : Reference → Outcome → Outcome
  | .owned _, outcome => outcome
  | .thisEmptyTuple, (_, w) => (.abort, w)

/-- Method `evaluate` as a host behaviour sees it; `none` stands for an evaluation
that does not return within the depth bound. -/
abbrev Evaluator := Value → World → Option Outcome

/-- Target of a `std::function<ValueRef(const std::vector<ValueRef>&, Scope&)>`. -/
abbrev HostFunction := Evaluator → List Value → World → Option Outcome

/-- Everything supplied from outside the value model: stream formatting of floats
and the behaviour behind each `std::function` handle. -/
structure Host where
  format : Format
  function : Nat → HostFunction

/-- Method `call`: `BuiltinFunction::call` forwards to the stored function, every
other class keeps `Value::call`. -/
def call (H : Host) (ev : Evaluator) : Value → List Value → World → Option Outcome
  | .builtinFunction _ _ f, arguments, w => H.function f ev arguments w
  | _, _, w => some (.error "Not callable", w)

/-- Method `evaluate` of `Value` and of every class derived from it.  The first
argument bounds the nesting depth of tuple applications.  In a non-empty tuple the
local `first` holds the reference the head evaluated to and is released when the call
has returned or thrown. -/
def evaluate (H : Host) : Nat → Value → World → Option Outcome
  | _, .plain, w => some (.error "Evaluate not implemented", w)
  | _, .integer bits is_signed value, w =>
    some (.ok (.owned (.integer bits is_signed value)), w)
  | _, .floatingPoint bits value, w => some (.ok (.owned (.floatingPoint bits value)), w)
  | _, .string contents, w => some (.ok (.owned (.string contents)), w)
  | _, .keyword name, w => some (.ok (.owned (.keyword name)), w)
  | _, .identifier name, w =>
    match w.scope.lookup name with
    | some value => some (.ok (.owned value), w)
    | none =>
      some (.error ("Undefined identifier \"" ++ (print H.format (.identifier name)).text ++ "\""), w)
  | _, .tuple [], w => some (.ok .thisEmptyTuple, w)
  | 0, .tuple (_ :: _), _ => none
  | depth + 1, .tuple (first :: rest), w =>
    match evaluate H depth first w with
    | none => none
    | some (.error e, w1) => some (.error e, w1)
    | some (.abort, w1) => some (.abort, w1)
    | some (.ok f, w1) => (call H (evaluate H depth) f.value rest w1).map (release f)
  | _, .function _ _, w => some (.error "Evaluate not implemented", w)
  | _, .builtinFunction name argument_names f, w =>
    some (.ok (.owned (.builtinFunction name argument_names f)), w)

/-- Lambda bound to `print` in `main`.  Its local `expression` holds the reference the
argument evaluated to and is released when the lambda is left. -/
def printBuiltin (F : Format) : HostFunction := fun ev arguments w =>
  match arguments with
  | [argument] =>
    match ev argument w with
    | none => none
    | some (.error e, w1) => some (.error e, w1)
    | some (.abort, w1) => some (.abort, w1)
    | some (.ok expression, w1) =>
      match (print F expression.value).failure with
      | some e =>
        some (release expression
          (.error e, ⟨w1.scope, w1.cout ++ (print F expression.value).text⟩))
      | none =>
        some (release expression
          (.ok (.owned (.tuple [])),
            ⟨w1.scope, w1.cout ++ (print F expression.value).text ++ "\n"⟩))
  | _ => some (.error "Expecting 1 argument", w)

/-- Value `main` stores under `print`. -/
def printValue : Value := .builtinFunction ⟨"print"⟩ [⟨"expression"⟩] 0

/-- Variable `root_scope` of `main` after the registration of `print`. -/
def root_scope : Scope := (Scope.mk none []).bind "print" printValue

/-- Host of `main`: its only `std::function` is the `print` lambda. -/
def mainHost (F : Format) : Host := ⟨F, fun _ => printBuiltin F⟩

/-- Constructor `Integer(int8_t value)`. -/
def Integer.ofInt8 (value : Int) : Value := .integer 8 true (readSigned 8 value)

/-- Constructor `Integer(int16_t value)`. -/
def Integer.ofInt16 (value : Int) : Value := .integer 16 true (readSigned 16 value)

/-- Constructor `Integer(int32_t value)`. -/
def Integer.ofInt32 (value : Int) : Value := .integer 32 true (readSigned 32 value)

/-- Constructor `Integer(int64_t value)`. -/
def Integer.ofInt64 (value : Int) : Value := .integer 64 true (readSigned 64 value)

/-- Constructor `Integer(uint8_t value)`. -/
def Integer.ofUInt8 (value : Int) : Value := .integer 8 false (readUnsigned 8 value)

/-- Constructor `Integer(uint16_t value)`. -/
def Integer.ofUInt16 (value : Int) : Value := .integer 16 false (readUnsigned 16 value)

/-- Constructor `Integer(uint32_t value)`. -/
def Integer.ofUInt32 (value : Int) : Value := .integer 32 false (readUnsigned 32 value)

/-- Constructor `Integer(uint64_t value)`. -/
def Integer.ofUInt64 (value : Int) : Value := .integer 64 false (readUnsigned 64 value)

/-- Test `dynamic_cast<const BuiltinFunction*>`: the only class that overrides `call`. -/
def Value.isBuiltinFunction : Value → Bool
  | .builtinFunction _ _ _ => true
  | _ => false

/-- Classes whose `evaluate` is `std::make_shared<Class>(*this)`: `Integer`,
`FloatingPoint`, `String`, `Keyword` and `BuiltinFunction`. -/
def Value.copiesItself : Value → Bool
  | .integer _ _ _ => true
  | .floatingPoint _ _ => true
  | .string _ => true
  | .keyword _ => true
  | .builtinFunction _ _ _ => true
  | _ => false

/-- Float formatting used by the closed examples, none of which prints a float:
the bit pattern in decimal. -/
def exampleFormat : Format := ⟨fun value => toString value, fun value => toString value⟩

/-- Modelled from the spec: the builtin `echo-second` of the application-rule
property, which is not part of the repository.  It evaluates its second argument
in the calling scope and returns the result; it never touches its first argument. -/
def echoSecond : HostFunction := fun ev arguments w =>
  match arguments with
  | [_, second] => ev second w
  | _ => some (.error "Expecting 2 arguments", w)

/-- Modelled from the spec: the adding builtin `add` of the application-rule
property, which is not part of the repository.  It evaluates both arguments, left
to right, into two locals, returns the sum of two 32-bit signed integers as a 32-bit
signed integer, and releases the locals when it is left. -/
def add : HostFunction := fun ev arguments w =>
  match arguments with
  | [left, right] =>
    match ev left w with
    | none => none
    | some (.error e, w1) => some (.error e, w1)
    | some (.abort, w1) => some (.abort, w1)
    | some (.ok x, w1) =>
      match ev right w1 with
      | none => none
      | some (.error e, w2) => some (release x (.error e, w2))
      | some (.abort, w2) => some (.abort, w2)
      | some (.ok y, w2) =>
        match x.value, y.value with
        | .integer 32 true m, .integer 32 true n =>
          some (release x (release y (.ok (.owned (Integer.ofInt32 (m + n))), w2)))
        | _, _ =>
          some (release x (release y (.error "Expecting two 32-bit signed integers", w2)))
  | _ => some (.error "Expecting 2 arguments", w)

/-- Host of the application-rule example: handle 1 is `echo-second`, handle 2 is
`add`, every other handle is the `print` lambda of `main`. -/
def exampleHost : Host :=
  ⟨exampleFormat, fun handle =>
    if handle = 1 then echoSecond else if handle = 2 then add else printBuiltin exampleFormat⟩

/-- Scope of the application-rule example: `root_scope` of `main` with `echo-second`
and `add` registered the way `main` registers `print`. -/
def exampleScope : Scope :=
  (root_scope.bind "echo-second" (.builtinFunction ⟨"echo-second"⟩ [⟨"a"⟩, ⟨"b"⟩] 1)).bind
    "add" (.builtinFunction ⟨"add"⟩ [⟨"a"⟩, ⟨"b"⟩] 2)

/-- Positions of an expression that the program evaluates before anything else of
it: the expression itself, the head of a non-empty tuple, and the single argument
of an application whose head is `print`. -/
inductive Position where
  | here
  | head (inner : Position) (rest : List Value)
  | printArgument (printHead : Value) (inner : Position)

/-- Expression that has `e` at the given position. -/
def Position.fill : Position → Value → Value
  | .here, e => e
  | .head inner rest, e => .tuple (inner.fill e :: rest)
  | .printArgument printHead inner, e => .tuple [printHead, inner.fill e]

/-- Number of tuples around the position. -/
def Position.depth : Position → Nat
  | .here => 0
  | .head inner _ => inner.depth + 1
  | .printArgument _ inner => inner.depth + 1

/-- Every head of a `printArgument` step evaluates, in world `w` and leaving it as it
is, to a builtin whose behaviour is the `print` lambda of `main`. -/
def Position.headsArePrint (H : Host) (w : World) : Position → Prop
  | .here => True
  | .head inner _ => inner.headsArePrint H w
  | .printArgument printHead inner =>
    (∃ name argument_names f, H.function f = printBuiltin H.format ∧
      ∀ depth, evaluate H depth printHead w
        = some (.ok (.owned (.builtinFunction name argument_names f)), w))
    ∧ inner.headsArePrint H w

/-- Scope of the shadowing example: a root that binds `x` to the integer 1. -/
def shadowParent : Scope := (Scope.mk none []).bind "x" (Integer.ofInt32 1)
/-- Scope of the shadowing example: a child of `shadowParent` that binds `x` to 2. -/
def shadowChild : Scope := (Scope.mk (some shadowParent) []).bind "x" (Integer.ofInt32 2)
/-- Scope of the shadowing example: another child of `shadowParent`, without bindings. -/
def shadowSibling : Scope := Scope.mk (some shadowParent) []

/-- Scope of the identifier example: `a` is bound to the identifier `b`, which is itself
unbound, and `t` is bound to the tuple `(print "x")`. -/
def aliasScope : Scope :=
  ((Scope.mk none []).bind "a" (.identifier "b")).bind "t"
    (.tuple [.identifier "print", .string "x"])

/-- Scope of the non-callable example: `root_scope` of `main` with `x` bound to an integer. -/
def integerScope : Scope := root_scope.bind "x" (Integer.ofInt32 7)

/-- Constructor `FloatingPoint(float value)`; the argument is the bit pattern. -/
def FloatingPoint.ofFloat (value : Nat) : Value := .floatingPoint 32 value

/-- Constructor `FloatingPoint(double value)`; the argument is the bit pattern. -/
def FloatingPoint.ofDouble (value : Nat) : Value := .floatingPoint 64 value

/-- Variable `expression` of `main`: the tuple `(print "Hello, world!")`. -/
def expression : Value := .tuple [.identifier "print", .string "Hello, world!"]

/-- Function `main`: evaluate `expression` in `root_scope`, then write the result and a
newline, and release the local `result` on the way out.  The outcome is the exit
status, the message of the exception that left `main`, or the abort, together with
everything written to `std::cout`. -/
def main (F : Format) (depth : Nat) : Option (Result Int × String) :=
  match evaluate (mainHost F) depth expression ⟨root_scope, ""⟩ with
  | none => none
  | some (.error e, w) => some (.error e, w.cout)
  | some (.abort, w) => some (.abort, w.cout)
  | some (.ok result, w) =>
    match (print F result.value).failure with
    | some e => some (.error e, w.cout ++ (print F result.value).text)
    | none =>
      match result with
      | .owned _ => some (.ok 0, w.cout ++ (print F result.value).text ++ "\n")
      | .thisEmptyTuple => some (.abort, w.cout ++ (print F result.value).text ++ "\n")

/-- Classes derived from `Atom`: `Integer`, `FloatingPoint`, `String`, `Keyword`,
`Function` and, through `Function`, `BuiltinFunction`. -/
def Value.isAtom : Value → Bool
  | .integer _ _ _ => true
  | .floatingPoint _ _ => true
  | .string _ => true
  | .keyword _ => true
  | .function _ _ => true
  | .builtinFunction _ _ _ => true
  | _ => false

mutual
/-- Values the constructors of the derived classes can build: the width tag of an
`Integer` is one of the four its constructors set, that of a `FloatingPoint` one of the
two, and a `Tuple` holds values built the same way. -/
def Value.isConstructed : Value → Bool
  | .plain => false
  | .integer bits _ _ => bits = 8 || bits = 16 || bits = 32 || bits = 64
  | .floatingPoint bits _ => bits = 32 || bits = 64
  | .string _ => true
  | .keyword _ => true
  | .identifier _ => true
  | .tuple elements => Value.areConstructed elements
  | .function _ _ => true
  | .builtinFunction _ _ _ => true
/-- All values of a list are constructor-built. -/
def Value.areConstructed : List Value → Bool
  | [] => true
  | element :: rest => element.isConstructed && Value.areConstructed rest
end

mutual
/-- Nesting depth of an expression tree: 0 for everything that is not a tuple, one more
than the deepest element for a tuple. -/
def Value.nesting : Value → Nat
  | .tuple elements => Value.nestingOfList elements + 1
  | _ => 0
/-- Largest nesting depth among the values of a list. -/
def Value.nestingOfList : List Value → Nat
  | [] => 0
  | element :: rest => max element.nesting (Value.nestingOfList rest)
end

mutual
/-- Every `BuiltinFunction` object in the expression tree holds the `print` lambda. -/
def Value.builtinsArePrint (H : Host) : Value → Prop
  | .builtinFunction _ _ f => H.function f = printBuiltin H.format
  | .tuple elements => Value.allBuiltinsArePrint H elements
  | _ => True
/-- Every `BuiltinFunction` object in the trees of a list holds the `print` lambda. -/
def Value.allBuiltinsArePrint (H : Host) : List Value → Prop
  | [] => True
  | element :: rest => element.builtinsArePrint H ∧ Value.allBuiltinsArePrint H rest
end

/-- Every `BuiltinFunction` bound somewhere in the scope chain holds the `print` lambda. -/
def Scope.callablesArePrint (H : Host) (s : Scope) : Prop :=
  ∀ t ∈ s.chain, ∀ n name argument_names f,
    Bindings.find n t.bindings = some (.builtinFunction name argument_names f) →
    H.function f = printBuiltin H.format

/-- Expression of the rollback example: the tuple `((print "a"))`. -/
def printThenCall : Value := .tuple [.tuple [.identifier "print", .string "a"]]

/-- A returned `BuiltinFunction`, if the result is one, holds the `print` lambda. -/
def Host.returnsPrint (H : Host) (r : Result Reference) : Prop :=
  ∀ name argument_names f, r = .ok (.owned (.builtinFunction name argument_names f)) →
    H.function f = printBuiltin H.format

/-- Expression of the ownership example: the tuple `(print ())`. -/
def printEmpty : Value := .tuple [.identifier "print", .tuple []]

/-- Expression of the ownership example: the tuple `(() 1)`. -/
def callEmpty : Value := .tuple [.tuple [], Integer.ofInt32 1]

/-- Example of a host behaviour that is not `print`, used to show what a builtin other
than `print` may do to the scope it is given: it binds its first argument, an
identifier, to its second argument, unevaluated, and returns an empty tuple. -/
def bindBuiltin : HostFunction := fun _ arguments w =>
  match arguments with
  | [.identifier name, value] =>
    some (.ok (.owned (.tuple [])), ⟨w.scope.bind name value, w.cout⟩)
  | _ => some (.error "Expecting a name and a value", w)

/-- Host of the scope-change example: handle 1 is `bindBuiltin`, every other handle is
the `print` lambda of `main`. -/
def bindHost : Host :=
  ⟨exampleFormat, fun handle => if handle = 1 then bindBuiltin else printBuiltin exampleFormat⟩

/-- Expression of the scope-change example: a tuple whose head is a builtin literal
holding `bindBuiltin`, applied to the name `y` and the string `s`. -/
def bindLiteral : Value :=
  .tuple [.builtinFunction ⟨"bind"⟩ [⟨"name"⟩, ⟨"value"⟩] 1, .identifier "y", .string "s"]

/-- Expression of the termination example: the tuple `(print (print "a"))`, whose outer
head is the builtin itself and whose inner head is the identifier. -/
def printTwice : Value :=
  .tuple [printValue, .tuple [.identifier "print", .string "a"]]

/-! ## Scope chain -/

/-- Induction along the parent chain of a scope. -/
theorem Scope.induct {P : Scope → Prop} (root : ∀ b, P (.mk none b))
    (child : ∀ p b, P p → P (.mk (some p) b)) : ∀ s, P s
  | .mk none b => root b
  | .mk (some p) b => child p b (Scope.induct root child p)

/-- Chain of a scope that has a parent. -/
theorem Scope.chain_mk_some (p : Scope) (b : Bindings) :
    (Scope.mk (some p) b).chain = Scope.mk (some p) b :: p.chain := rfl

/-- Chain of a root scope. -/
theorem Scope.chain_mk_none (b : Bindings) :
    (Scope.mk none b).chain = [Scope.mk none b] := rfl

/-- One step of `Scope::lookup`. -/
theorem Scope.lookup_mk (parent : Option Scope) (b : Bindings) (n : String) :
    (Scope.mk parent b).lookup n
      = match Bindings.find n b with
        | some value => some value
        | none => match parent with
          | some p => p.lookup n
          | none => none := by
  cases parent <;> simp [Scope.lookup]

/-- A lookup is the first hit of `find` along the chain. -/
theorem Scope.lookup_eq_findSome (n : String) (s : Scope) :
    s.lookup n = s.chain.findSome? (fun t => Bindings.find n t.bindings) := by
  induction s using Scope.induct with
  | root b =>
    rw [Scope.chain_mk_none]
    cases h : Bindings.find n b <;> simp [Scope.lookup, Scope.bindings, h]
  | child p b ih =>
    rw [Scope.chain_mk_some]
    cases h : Bindings.find n b <;> simp [Scope.lookup, Scope.bindings, h, ih]

/-- After `bindings[n] = v`, `find` gives `v` for `n` and the old answer for other keys. -/
theorem Bindings.find_assign (n m : String) (v : Value) (b : Bindings) :
    Bindings.find m (Bindings.assign n v b) = if m = n then some v else Bindings.find m b := by
  induction b with
  | nil =>
    by_cases h : m = n
    · simp [Bindings.assign, Bindings.find, h]
    · have h2 : ¬ n = m := fun e => h e.symm
      simp [Bindings.assign, Bindings.find, h, h2]
  | cons entry rest ih =>
    obtain ⟨key, old⟩ := entry
    by_cases hk : key = n
    · subst hk
      by_cases h : m = key
      · simp [Bindings.assign, Bindings.find, h]
      · have h2 : ¬ key = m := fun e => h e.symm
        simp [Bindings.assign, Bindings.find, h, h2]
    · by_cases h : m = n
      · subst h
        simp [Bindings.assign, Bindings.find, hk, ih]
      · by_cases h3 : key = m
        · simp [Bindings.assign, Bindings.find, hk, h, h3]
        · simp [Bindings.assign, Bindings.find, hk, h, h3, ih]

/-- An assignment adds an entry exactly when the key was not present. -/
theorem Bindings.length_assign (n : String) (v : Value) (b : Bindings) :
    (Bindings.assign n v b).length
      = if (Bindings.find n b).isSome then b.length else b.length + 1 := by
  induction b with
  | nil => simp [Bindings.assign, Bindings.find]
  | cons entry rest ih =>
    obtain ⟨key, old⟩ := entry
    by_cases hk : key = n
    · simp [Bindings.assign, Bindings.find, hk]
    · simp only [Bindings.assign, Bindings.find, hk, if_false, List.length_cons, ih]
      split <;> rfl

/-- Claim C2. Nearest-binding lookup: a lookup returns `v` exactly when the chain of the
queried scope splits into scopes that do not bind the name, followed by a scope that binds
it to `v`; and it returns nothing exactly when no scope of the chain binds the name. -/
theorem lookup_nearest_binding (s : Scope) (n : String) :
    (∀ v, s.lookup n = some v ↔
      ∃ nearer t farther, s.chain = nearer ++ t :: farther ∧
        Bindings.find n t.bindings = some v ∧
        ∀ u ∈ nearer, Bindings.find n u.bindings = none) ∧
    (s.lookup n = none ↔ ∀ t ∈ s.chain, Bindings.find n t.bindings = none) := by
  rw [Scope.lookup_eq_findSome]
  constructor
  · intro v
    exact List.findSome?_eq_some_iff
  · simp

theorem lookup_nearest_binding_witness :
    shadowChild.lookup "x" = some (Integer.ofInt32 2) ∧
    shadowParent.lookup "x" = some (Integer.ofInt32 1) ∧
    shadowSibling.lookup "x" = some (Integer.ofInt32 1) :=
  ⟨((lookup_nearest_binding shadowChild "x").1 _).2
      ⟨[], shadowChild, [shadowParent], rfl, rfl, by simp⟩,
   ((lookup_nearest_binding shadowParent "x").1 _).2
      ⟨[], shadowParent, [], rfl, rfl, by simp⟩,
   ((lookup_nearest_binding shadowSibling "x").1 _).2
      ⟨[shadowSibling], shadowParent, [], rfl, rfl, by
        intro u hu
        rw [List.mem_singleton] at hu
        subst hu
        rfl⟩⟩

/-! ## Evaluation -/

/-- Releasing a reference that shares ownership changes nothing. -/
theorem map_release_owned (v : Value) (o : Option Outcome) :
    o.map (release (.owned v)) = o := by
  cases o <;> rfl

/-- Releasing a reference leaves the state as it is. -/
theorem release_world (r : Reference) (o : Outcome) : (release r o).2 = o.2 := by
  cases r <;> rfl

/-- Releasing a reference keeps the result or turns it into the abort. -/
theorem release_result (r : Reference) (o : Outcome) :
    (release r o).1 = o.1 ∨ (release r o).1 = .abort := by
  cases r
  · exact Or.inl rfl
  · exact Or.inr rfl

/-- Claim C1. Application rule: when the head of a non-empty tuple evaluates to a builtin,
whatever its name and declared parameters, the tuple evaluates to exactly what the builtin's
host behaviour returns for the remaining elements, passed as they are and in order, in the
scope as the head's evaluation left it. -/
theorem application_rule (H : Host) (depth : Nat) (head : Value) (arguments : List Value)
    (w w1 : World) (name : Identifier) (argument_names : List Identifier) (f : Nat)
    (hhead : evaluate H depth head w
      = some (.ok (.owned (.builtinFunction name argument_names f)), w1)) :
    evaluate H (depth + 1) (.tuple (head :: arguments)) w
      = H.function f (evaluate H depth) arguments w1 := by
  simp only [evaluate, hhead, Reference.value, call, map_release_owned]

theorem application_rule_witness :
    (evaluate exampleHost 2
        (.tuple [.identifier "echo-second", Integer.ofInt32 10,
          .tuple [.identifier "add", Integer.ofInt32 1, Integer.ofInt32 1]])
        ⟨exampleScope, ""⟩
      = some (.ok (.owned (Integer.ofInt32 2)), ⟨exampleScope, ""⟩)) ∧
    (print exampleFormat (Integer.ofInt32 2)).text = "2" ∧
    (evaluate exampleHost 1
        (.tuple [.identifier "echo-second", .identifier "some-unbound-name", .string "x"])
        ⟨exampleScope, ""⟩
      = some (.ok (.owned (.string "x")), ⟨exampleScope, ""⟩)) ∧
    (evaluate exampleHost 0 (.identifier "some-unbound-name") ⟨exampleScope, ""⟩
      = some (.error "Undefined identifier \"some-unbound-name\"", ⟨exampleScope, ""⟩)) :=
  ⟨(application_rule exampleHost 1 (.identifier "echo-second") _ ⟨exampleScope, ""⟩
      ⟨exampleScope, ""⟩ ⟨"echo-second"⟩ [⟨"a"⟩, ⟨"b"⟩] 1 rfl).trans rfl,
   by decide,
   (application_rule exampleHost 0 (.identifier "echo-second") _ ⟨exampleScope, ""⟩
      ⟨exampleScope, ""⟩ ⟨"echo-second"⟩ [⟨"a"⟩, ⟨"b"⟩] 1 rfl).trans rfl,
   rfl⟩

/-- Claim C3. Identifier evaluation: an identifier evaluates successfully exactly when the
lookup of its name finds a binding, and then to the bound value itself, leaving scope and
output as they were; otherwise it fails with the message `Undefined identifier "n"`, which
holds the identifier's printed form `n`. -/
theorem identifier_evaluate (H : Host) (depth : Nat) (n : String) (w : World) :
    (∀ v, w.scope.lookup n = some v →
      evaluate H depth (.identifier n) w = some (.ok (.owned v), w)) ∧
    (w.scope.lookup n = none →
      evaluate H depth (.identifier n) w
        = some (.error ("Undefined identifier \"" ++ n ++ "\""), w)) ∧
    ((∃ v w1, evaluate H depth (.identifier n) w = some (.ok v, w1)) ↔
      ∃ v, w.scope.lookup n = some v) ∧
    print H.format (.identifier n) = ⟨n, none⟩ := by
  refine ⟨?_, ?_, ?_, rfl⟩
  · intro v hv
    simp only [evaluate, hv]
  · intro hv
    simp only [evaluate, hv, print, Written.put]
  · cases hv : w.scope.lookup n with
    | none => simp [evaluate, hv]
    | some v => simp [evaluate, hv]

theorem identifier_evaluate_witness :
    (evaluate (mainHost exampleFormat) 0 (.identifier "a") ⟨aliasScope, ""⟩
      = some (.ok (.owned (.identifier "b")), ⟨aliasScope, ""⟩)) ∧
    (evaluate (mainHost exampleFormat) 0 (.identifier "t") ⟨aliasScope, ""⟩
      = some (.ok (.owned (.tuple [.identifier "print", .string "x"])), ⟨aliasScope, ""⟩)) ∧
    (evaluate (mainHost exampleFormat) 0 (.identifier "b") ⟨aliasScope, ""⟩
      = some (.error "Undefined identifier \"b\"", ⟨aliasScope, ""⟩)) :=
  ⟨(identifier_evaluate (mainHost exampleFormat) 0 "a" ⟨aliasScope, ""⟩).1 _ rfl,
   (identifier_evaluate (mainHost exampleFormat) 0 "t" ⟨aliasScope, ""⟩).1 _ rfl,
   (identifier_evaluate (mainHost exampleFormat) 0 "b" ⟨aliasScope, ""⟩).2.1 rfl⟩

/-- Claim C4. Self-evaluation of atoms: an Integer, FloatingPoint, String, Keyword or
BuiltinFunction evaluates, in every scope and at every depth bound, to a value equal to
itself in every tag and payload, held by a reference that shares ownership, leaving scope
and output untouched; so the result prints exactly as the original does and evaluating it
again returns it again. -/
theorem atoms_self_evaluate (H : Host) (depth : Nat) (v : Value) (w : World)
    (hv : v.copiesItself = true) :
    ∃ r, evaluate H depth v w = some (.ok (.owned r), w) ∧ r = v ∧
      print H.format r = print H.format v ∧
      evaluate H depth r w = some (.ok (.owned r), w) := by
  have h : evaluate H depth v w = some (.ok (.owned v), w) := by
    cases v with
    | integer bits is_signed value => simp only [evaluate]
    | floatingPoint bits value => simp only [evaluate]
    | string contents => simp only [evaluate]
    | keyword name => simp only [evaluate]
    | builtinFunction name argument_names f => simp only [evaluate]
    | plain => simp [Value.copiesItself] at hv
    | identifier name => simp [Value.copiesItself] at hv
    | tuple elements => simp [Value.copiesItself] at hv
    | function name argument_names => simp [Value.copiesItself] at hv
  exact ⟨v, h, rfl, rfl, h⟩

theorem atoms_self_evaluate_witness :
    ∃ r, evaluate (mainHost exampleFormat) 0 (.string "Hello, world!") ⟨root_scope, ""⟩
        = some (.ok (.owned r), ⟨root_scope, ""⟩) ∧
      r = .string "Hello, world!" ∧
      print exampleFormat r = print exampleFormat (.string "Hello, world!") ∧
      evaluate (mainHost exampleFormat) 0 r ⟨root_scope, ""⟩
        = some (.ok (.owned r), ⟨root_scope, ""⟩) :=
  atoms_self_evaluate (mainHost exampleFormat) 0 (.string "Hello, world!") ⟨root_scope, ""⟩ rfl

/-- In `root_scope` the name `print` is bound to the value `main` registered. -/
theorem root_lookup_print : root_scope.lookup "print" = some printValue := rfl

/-- Under the host of `main`, `(print ())` writes `()` and a newline and is then aborted by
the release of the lambda's local. -/
theorem evaluate_printEmpty (F : Format) (depth : Nat) (out : String) :
    evaluate (mainHost F) (depth + 1) printEmpty ⟨root_scope, out⟩
      = some (.abort, ⟨root_scope, out ++ "()" ++ "\n"⟩) := by
  simp only [printEmpty, evaluate, root_lookup_print, printValue, Reference.value, call,
    mainHost, printBuiltin]
  rfl

/-- Evaluation of a tuple whose head is the empty tuple is aborted by the release of the
local that holds the head, whatever follows the head. -/
theorem evaluate_emptyHead (H : Host) (depth : Nat) (rest : List Value) (w : World) :
    evaluate H (depth + 1) (.tuple (.tuple [] :: rest)) w = some (.abort, w) := by
  simp only [evaluate, Reference.value, call]
  rfl

/-- Claim C5. The code on the empty tuple: in every scope, under every host and at every
depth bound (so with no lookup and no call) evaluating `()` hands back the tuple, printed
`()`, with scope and output untouched; but where the sibling classes hand back a copy that
shares ownership, it hands back a second, independent owner of the tuple, and the release
of that reference aborts the process.  So `(print ())` in the root scope of `main` writes
`()` and is aborted, and `(() 1)` is aborted, instead of returning or failing. -/
theorem empty_tuple_second_owner (H : Host) (depth : Nat) (w : World) :
    evaluate H depth (.tuple []) w = some (.ok .thisEmptyTuple, w) ∧
    Reference.thisEmptyTuple.value = .tuple [] ∧
    print H.format (.tuple []) = ⟨"()", none⟩ ∧
    (∀ o : Outcome, release .thisEmptyTuple o = (.abort, o.2)) ∧
    (∀ F : Format, evaluate (mainHost F) (depth + 1) printEmpty ⟨root_scope, ""⟩
      = some (.abort, ⟨root_scope, "()\n"⟩)) ∧
    evaluate H (depth + 1) callEmpty w = some (.abort, w) := by
  refine ⟨?_, rfl, rfl, fun o => rfl, ?_, ?_⟩
  · simp only [evaluate]
  · intro F
    exact evaluate_printEmpty F depth ""
  · exact evaluate_emptyHead H depth _ w

/-- Claim C6. Bind is local: after `bindings[n] = v` in scope `s`, the frame of `s` maps
`n` to `v` and every other name as before, so a lookup of `n` from `s` returns `v` even
when an ancestor binds `n` and a lookup of any other name is unchanged; the frame gains an
entry only when `n` was not bound in it (insert) and keeps its size otherwise (overwrite);
and the parent and all ancestors of `s` are the same scopes as before. -/
theorem bind_is_local (s : Scope) (n : String) (v : Value) :
    (s.bind n v).lookup n = some v ∧
    (∀ m, m ≠ n → (s.bind n v).lookup m = s.lookup m) ∧
    (∀ m, Bindings.find m (s.bind n v).bindings
      = if m = n then some v else Bindings.find m s.bindings) ∧
    ((s.bind n v).bindings.length
      = if (Bindings.find n s.bindings).isSome then s.bindings.length
        else s.bindings.length + 1) ∧
    (s.bind n v).parent = s.parent ∧
    (s.bind n v).ancestors = s.ancestors := by
  obtain ⟨parent, bindings⟩ := s
  refine ⟨?_, ?_, ?_, Bindings.length_assign n v bindings, rfl, ?_⟩
  · simp [Scope.bind, Scope.lookup_mk, Bindings.find_assign]
  · intro m hm
    simp [Scope.bind, Scope.lookup_mk, Bindings.find_assign, hm]
  · intro m
    simp [Scope.bind, Scope.bindings, Bindings.find_assign]
  · cases parent <;> rfl

theorem bind_is_local_witness :
    (shadowChild.bind "x" (.keyword "k")).lookup "y" = shadowChild.lookup "y" ∧
    (shadowChild.bind "x" (.keyword "k")).lookup "x" = some (.keyword "k") ∧
    (shadowChild.bind "x" (.keyword "k")).ancestors = [shadowParent] ∧
    shadowParent.lookup "x" = some (Integer.ofInt32 1) :=
  ⟨(bind_is_local shadowChild "x" (.keyword "k")).2.1 "y" (by decide),
   (bind_is_local shadowChild "x" (.keyword "k")).1,
   (bind_is_local shadowChild "x" (.keyword "k")).2.2.2.2.2,
   rfl⟩

/-- Evaluation of an identifier that is bound. -/
theorem evaluate_identifier_bound (H : Host) (depth : Nat) (n : String) (w : World) (v : Value)
    (hv : w.scope.lookup n = some v) :
    evaluate H depth (.identifier n) w = some (.ok (.owned v), w) := by
  simp only [evaluate, hv]

/-- In the root scope of `main` the identifier `print` evaluates to the `print` builtin. -/
theorem root_print_head (F : Format) (out : String) :
    ∃ name argument_names f, (mainHost F).function f = printBuiltin (mainHost F).format ∧
      ∀ depth, evaluate (mainHost F) depth (.identifier "print") ⟨root_scope, out⟩
        = some (.ok (.owned (.builtinFunction name argument_names f)), ⟨root_scope, out⟩) :=
  ⟨⟨"print"⟩, [⟨"expression"⟩], 0, rfl,
    fun depth => evaluate_identifier_bound _ depth "print" ⟨root_scope, out⟩ _ rfl⟩

/-- Evaluation of a non-empty tuple whose head fails. -/
theorem evaluate_tuple_head_error (H : Host) (depth : Nat) (first : Value) (rest : List Value)
    (w w1 : World) (e : Error) (h : evaluate H depth first w = some (.error e, w1)) :
    evaluate H (depth + 1) (.tuple (first :: rest)) w = some (.error e, w1) := by
  simp only [evaluate, h]

/-- Evaluation of a non-empty tuple whose head is aborted. -/
theorem evaluate_tuple_head_abort (H : Host) (depth : Nat) (first : Value) (rest : List Value)
    (w w1 : World) (h : evaluate H depth first w = some (.abort, w1)) :
    evaluate H (depth + 1) (.tuple (first :: rest)) w = some (.abort, w1) := by
  simp only [evaluate, h]

/-- Evaluation of a non-empty tuple whose head returns a reference: the call, then the
release of the reference. -/
theorem evaluate_tuple_head_ok (H : Host) (depth : Nat) (first : Value) (rest : List Value)
    (w w1 : World) (f : Reference) (h : evaluate H depth first w = some (.ok f, w1)) :
    evaluate H (depth + 1) (.tuple (first :: rest)) w
      = (call H (evaluate H depth) f.value rest w1).map (release f) := by
  simp only [evaluate, h]

/-- The `print` lambda passes on the failure of its argument. -/
theorem printBuiltin_argument_error (F : Format) (ev : Evaluator) (argument : Value)
    (w w1 : World) (e : Error) (h : ev argument w = some (.error e, w1)) :
    printBuiltin F ev [argument] w = some (.error e, w1) := by
  simp only [printBuiltin, h]

/-- A failure at a position reached through tuple heads and `print` arguments is the
failure of the whole expression. -/
theorem evaluate_fill_error (H : Host) (p : Position) (depth : Nat) (inner : Value)
    (w w1 : World) (e : Error) (hp : p.headsArePrint H w)
    (h : evaluate H depth inner w = some (.error e, w1)) :
    evaluate H (depth + p.depth) (p.fill inner) w = some (.error e, w1) := by
  induction p with
  | here => exact h
  | head q rest ih =>
    exact evaluate_tuple_head_error H (depth + q.depth) (q.fill inner) rest w w1 e (ih hp)
  | printArgument printHead q ih =>
    obtain ⟨⟨name, argument_names, f, hf, hhead⟩, hq⟩ := hp
    show evaluate H (depth + q.depth + 1) (.tuple [printHead, q.fill inner]) w = _
    rw [evaluate_tuple_head_ok H (depth + q.depth) printHead [q.fill inner] w w _
      (hhead (depth + q.depth)), map_release_owned]
    simp only [Reference.value, call, hf]
    exact printBuiltin_argument_error H.format _ _ w w1 e (ih hq)

/-- Claim C7. The code on failures: a failing head makes the tuple fail with the same error
in the state the head left (no call happens, whatever the host); a failing argument makes
the `print` lambda fail with that error; an error raised below tuple heads and `print`
arguments is the error of the whole evaluation.  But a failing call of the head's value
reaches the caller only after the local holding the head's reference is released: the
tuple fails with the call's error when the reference shares ownership and is aborted when
it is the second owner an empty tuple evaluates to.  So `(() 1)`, whose head evaluates to
a value and whose call fails with `Not callable`, is aborted instead of failing. -/
theorem failure_propagation (H : Host) :
    (∀ depth first rest w e w1, evaluate H depth first w = some (.error e, w1) →
      evaluate H (depth + 1) (.tuple (first :: rest)) w = some (.error e, w1)) ∧
    (∀ depth first rest w f w1 e w2, evaluate H depth first w = some (.ok f, w1) →
      call H (evaluate H depth) f.value rest w1 = some (.error e, w2) →
      evaluate H (depth + 1) (.tuple (first :: rest)) w = some (release f (.error e, w2))) ∧
    (∀ (ev : Evaluator) argument w e w1, ev argument w = some (.error e, w1) →
      printBuiltin H.format ev [argument] w = some (.error e, w1)) ∧
    (∀ (p : Position) depth inner w e w1, p.headsArePrint H w →
      evaluate H depth inner w = some (.error e, w1) →
      evaluate H (depth + p.depth) (p.fill inner) w = some (.error e, w1)) ∧
    (∀ depth w,
      evaluate H depth (.tuple []) w = some (.ok .thisEmptyTuple, w) ∧
      call H (evaluate H depth) Reference.thisEmptyTuple.value [Integer.ofInt32 1] w
        = some (.error "Not callable", w) ∧
      evaluate H (depth + 1) callEmpty w = some (.abort, w)) := by
  refine ⟨?_, ?_, ?_, ?_, ?_⟩
  · intro depth first rest w e w1 h
    exact evaluate_tuple_head_error H depth first rest w w1 e h
  · intro depth first rest w f w1 e w2 h hc
    rw [evaluate_tuple_head_ok H depth first rest w w1 f h, hc]
    rfl
  · intro ev argument w e w1 h
    exact printBuiltin_argument_error H.format ev argument w w1 e h
  · intro p depth inner w e w1 hp h
    exact evaluate_fill_error H p depth inner w w1 e hp h
  · intro depth w
    exact ⟨by simp only [evaluate], rfl, evaluate_emptyHead H depth _ w⟩

theorem failure_propagation_witness :
    (evaluate (mainHost exampleFormat) 2
        (.tuple [.identifier "print", .tuple [.identifier "print", .identifier "y"]])
        ⟨root_scope, ""⟩
      = some (.error "Undefined identifier \"y\"", ⟨root_scope, ""⟩)) ∧
    (evaluate (mainHost exampleFormat) 3
        (.tuple [.tuple [.identifier "print", .tuple [.identifier "print"]], .string "z"])
        ⟨root_scope, ""⟩
      = some (.error "Expecting 1 argument", ⟨root_scope, ""⟩)) ∧
    (evaluate (mainHost exampleFormat) 1 callEmpty ⟨root_scope, ""⟩
      = some (.abort, ⟨root_scope, ""⟩)) :=
  ⟨(failure_propagation (mainHost exampleFormat)).2.2.2.1
      (.printArgument (.identifier "print") (.printArgument (.identifier "print") .here))
      0 (.identifier "y") ⟨root_scope, ""⟩ "Undefined identifier \"y\"" ⟨root_scope, ""⟩
      ⟨root_print_head exampleFormat "", root_print_head exampleFormat "", trivial⟩
      rfl,
   (failure_propagation (mainHost exampleFormat)).2.2.2.1
      (.head (.printArgument (.identifier "print") .here) [.string "z"])
      1 (.tuple [.identifier "print"]) ⟨root_scope, ""⟩ "Expecting 1 argument" ⟨root_scope, ""⟩
      ⟨root_print_head exampleFormat "", trivial⟩
      rfl,
   ((failure_propagation (mainHost exampleFormat)).2.2.2.2 0 ⟨root_scope, ""⟩).2.2⟩

/-- Claim C8. The code on non-callables: `call` on any value that is not a BuiltinFunction
fails with `Not callable` for every argument list and scope, without touching scope or
output; a non-empty tuple whose head evaluates to such a value, held by a reference that
shares ownership, fails with `Not callable` whatever its remaining elements are, as
`(1 2)`, `("f")` and `(x)` with `x` bound to an Integer do.  But when the head is the
empty tuple, as in `(() 1)`, the reference is the second owner, its release while the
exception passes aborts the process, and the tuple does not fail with `Not callable`. -/
theorem not_callable (H : Host) :
    (∀ (ev : Evaluator) v arguments w, v.isBuiltinFunction = false →
      call H ev v arguments w = some (.error "Not callable", w)) ∧
    (∀ depth first rest w f w1, evaluate H depth first w = some (.ok (.owned f), w1) →
      f.isBuiltinFunction = false →
      evaluate H (depth + 1) (.tuple (first :: rest)) w = some (.error "Not callable", w1)) ∧
    (∀ depth first rest w w1, evaluate H depth first w = some (.ok .thisEmptyTuple, w1) →
      evaluate H (depth + 1) (.tuple (first :: rest)) w = some (.abort, w1)) ∧
    (∀ depth rest w, evaluate H (depth + 1) (.tuple (.tuple [] :: rest)) w = some (.abort, w)) ∧
    (∀ depth w, evaluate H (depth + 1) callEmpty w = some (.abort, w)) := by
  have hcall : ∀ (ev : Evaluator) v arguments w, v.isBuiltinFunction = false →
      call H ev v arguments w = some (.error "Not callable", w) := by
    intro ev v arguments w hv
    cases v <;> first | rfl | simp [Value.isBuiltinFunction] at hv
  refine ⟨hcall, ?_, ?_, ?_, ?_⟩
  · intro depth first rest w f w1 h hf
    rw [evaluate_tuple_head_ok H depth first rest w w1 _ h, map_release_owned]
    exact hcall _ f rest w1 hf
  · intro depth first rest w w1 h
    rw [evaluate_tuple_head_ok H depth first rest w w1 _ h]
    rfl
  · intro depth rest w
    exact evaluate_emptyHead H depth rest w
  · intro depth w
    exact evaluate_emptyHead H depth _ w

theorem not_callable_witness :
    (evaluate (mainHost exampleFormat) 1 (.tuple [Integer.ofInt32 1, Integer.ofInt32 2])
        ⟨integerScope, ""⟩ = some (.error "Not callable", ⟨integerScope, ""⟩)) ∧
    (evaluate (mainHost exampleFormat) 1 (.tuple [.string "f"])
        ⟨integerScope, ""⟩ = some (.error "Not callable", ⟨integerScope, ""⟩)) ∧
    (evaluate (mainHost exampleFormat) 1 (.tuple [.identifier "x"])
        ⟨integerScope, ""⟩ = some (.error "Not callable", ⟨integerScope, ""⟩)) ∧
    (evaluate (mainHost exampleFormat) 1 (.tuple [.tuple [], Integer.ofInt32 1])
        ⟨integerScope, ""⟩ = some (.abort, ⟨integerScope, ""⟩)) :=
  ⟨(not_callable (mainHost exampleFormat)).2.1 0 (Integer.ofInt32 1) _ ⟨integerScope, ""⟩
      (Integer.ofInt32 1) _ rfl rfl,
   (not_callable (mainHost exampleFormat)).2.1 0 (.string "f") _ ⟨integerScope, ""⟩
      (.string "f") _ rfl rfl,
   (not_callable (mainHost exampleFormat)).2.1 0 (.identifier "x") _ ⟨integerScope, ""⟩
      (Integer.ofInt32 7) _ rfl rfl,
   (not_callable (mainHost exampleFormat)).2.2.2.1 0 [Integer.ofInt32 1] ⟨integerScope, ""⟩⟩

/-- Claim C9. A bare Function is not evaluable: evaluating a non-builtin Function fails
with `Evaluate not implemented` in every scope, so a tuple whose head is a literal bare
Function fails with the same error, while printing the Function succeeds and writes
`<function "name">`. -/
theorem bare_function_not_evaluable (H : Host) (depth : Nat) (name : Identifier)
    (argument_names : List Identifier) (rest : List Value) (w : World) :
    evaluate H depth (.function name argument_names) w
      = some (.error "Evaluate not implemented", w) ∧
    evaluate H (depth + 1) (.tuple (.function name argument_names :: rest)) w
      = some (.error "Evaluate not implemented", w) ∧
    print H.format (.function name argument_names)
      = ⟨"<function \"" ++ name.name ++ "\">", none⟩ := by
  refine ⟨?_, ?_, ?_⟩
  · simp only [evaluate]
  · simp only [evaluate]
  · simp [print, Written.andThen, Written.put, String.append_assoc]

/-- Claim C10. The code of the `print` lambda: called with any number of arguments other
than one it fails with `Expecting 1 argument` whatever the evaluator is, so without
evaluating anything, and leaves scope and output untouched; called with one argument that
evaluates to a printable value it leaves the scope as the evaluation left it and appends
the value's printed form and a newline to the output already produced, and then releases
the local holding the reference: it returns the empty tuple when the reference shares
ownership, and is aborted when it is the second owner an empty tuple evaluates to.  So
with the argument `()` it writes `()` and is aborted instead of returning. -/
theorem print_builtin (F : Format) (ev : Evaluator) :
    (∀ argument w v w1, ev argument w = some (.ok (.owned v), w1) →
      (print F v).failure = none →
      printBuiltin F ev [argument] w
        = some (.ok (.owned (.tuple [])), ⟨w1.scope, w1.cout ++ (print F v).text ++ "\n"⟩)) ∧
    (∀ arguments w, arguments.length ≠ 1 →
      printBuiltin F ev arguments w = some (.error "Expecting 1 argument", w)) ∧
    (∀ argument w w1, ev argument w = some (.ok .thisEmptyTuple, w1) →
      printBuiltin F ev [argument] w = some (.abort, ⟨w1.scope, w1.cout ++ "()" ++ "\n"⟩)) ∧
    (∀ (H : Host) depth w,
      printBuiltin F (evaluate H depth) [.tuple []] w
        = some (.abort, ⟨w.scope, w.cout ++ "()" ++ "\n"⟩)) := by
  refine ⟨?_, ?_, ?_, ?_⟩
  · intro argument w v w1 h hp
    simp only [printBuiltin, h, Reference.value, hp]
    rfl
  · intro arguments w hlen
    match arguments, hlen with
    | [], _ => rfl
    | [_], hlen => exact absurd rfl hlen
    | _ :: _ :: _, _ => rfl
  · intro argument w w1 h
    simp only [printBuiltin, h]
    rfl
  · intro H depth w
    simp only [printBuiltin, evaluate]
    rfl

theorem print_builtin_witness :
    (printBuiltin exampleFormat (evaluate (mainHost exampleFormat) 0) [.string "Hello, world!"]
        ⟨root_scope, ""⟩
      = some (.ok (.owned (.tuple [])), ⟨root_scope, "\"Hello, world!\"\n"⟩)) ∧
    (printBuiltin exampleFormat (fun _ _ => none) [.string "a", .string "b"] ⟨root_scope, "out"⟩
      = some (.error "Expecting 1 argument", ⟨root_scope, "out"⟩)) ∧
    (printBuiltin exampleFormat (fun _ _ => none) [] ⟨root_scope, "out"⟩
      = some (.error "Expecting 1 argument", ⟨root_scope, "out"⟩)) ∧
    (printBuiltin exampleFormat (evaluate (mainHost exampleFormat) 0) [.tuple []]
        ⟨root_scope, ""⟩
      = some (.abort, ⟨root_scope, "()\n"⟩)) :=
  ⟨((print_builtin exampleFormat (evaluate (mainHost exampleFormat) 0)).1
      (.string "Hello, world!") ⟨root_scope, ""⟩ (.string "Hello, world!") ⟨root_scope, ""⟩
      rfl rfl).trans rfl,
   (print_builtin exampleFormat (fun _ _ => none)).2.1 [.string "a", .string "b"]
      ⟨root_scope, "out"⟩ (by decide),
   (print_builtin exampleFormat (fun _ _ => none)).2.1 [] ⟨root_scope, "out"⟩ (by decide),
   ((print_builtin exampleFormat (evaluate (mainHost exampleFormat) 0)).2.2.2
      (mainHost exampleFormat) 0 ⟨root_scope, ""⟩).trans rfl⟩

/-! ## Driver -/

/-- Claim C11. End-to-end fixture: in the root scope of `main`, whose only binding is
`print`, the tuple `(print "Hello, world!")` evaluates, at every depth bound of at least
one, to the empty tuple after writing the line `"Hello, world!"` with its quotes; `main`
then writes the line `()`, so the whole output is these two lines and the exit status 0. -/
theorem end_to_end_fixture (F : Format) (depth : Nat) :
    root_scope.bindings = [("print", printValue)] ∧
    root_scope.parent = none ∧
    (mainHost F).function 0 = printBuiltin F ∧
    evaluate (mainHost F) (depth + 1) expression ⟨root_scope, ""⟩
      = some (.ok (.owned (.tuple [])), ⟨root_scope, "\"Hello, world!\"\n"⟩) ∧
    print F (.tuple []) = ⟨"()", none⟩ ∧
    main F (depth + 1) = some (.ok 0, "\"Hello, world!\"\n()\n") := by
  refine ⟨rfl, rfl, rfl, ?_, rfl, ?_⟩
  · simp only [expression, evaluate, root_lookup_print, printValue, Reference.value, call,
      mainHost, printBuiltin]
    rfl
  · simp only [main, expression, evaluate, root_lookup_print, printValue, Reference.value,
      call, mainHost, printBuiltin]
    rfl

/-- Claim C20. Output is not rolled back on failure: in the root scope of `main` the tuple
`((print "a"))` first evaluates its head `(print "a")`, which writes the line `"a"` and
returns the empty tuple; calling the empty tuple then fails with `Not callable`, and the
failed evaluation leaves the line in the output. -/
theorem output_survives_failure (F : Format) (depth : Nat) :
    evaluate (mainHost F) (depth + 1) (.tuple [.identifier "print", .string "a"])
        ⟨root_scope, ""⟩
      = some (.ok (.owned (.tuple [])), ⟨root_scope, "\"a\"\n"⟩) ∧
    evaluate (mainHost F) (depth + 2) printThenCall ⟨root_scope, ""⟩
      = some (.error "Not callable", ⟨root_scope, "\"a\"\n"⟩) ∧
    ("\"a\"\n" : String) ≠ "" := by
  refine ⟨?_, ?_, by decide⟩
  · simp only [evaluate, root_lookup_print, printValue, Reference.value, call, mainHost,
      printBuiltin]
    rfl
  · simp only [printThenCall, evaluate, root_lookup_print, printValue, Reference.value,
      call, mainHost, printBuiltin]
    rfl

/-! ## Printing -/

/-- Text written for every byte through the character overload of `operator<<` differs
from the decimal numeral of the byte read as an unsigned number. -/
theorem putChar_ne_numeral_unsigned :
    ∀ k : Fin 256, (putChar (readUnsigned 8 (readUnsigned 8 (k.val : Int)))).text
      ≠ toString (k.val : Int) := by
  set_option maxRecDepth 1000000 in decide

/-- Text written for every byte through the character overload of `operator<<` differs
from the decimal numeral of the byte read as a signed number. -/
theorem putChar_ne_numeral_signed :
    ∀ k : Fin 256, (putChar (readSigned 8 (readSigned 8 ((k.val : Int) - 128)))).text
      ≠ toString ((k.val : Int) - 128) := by
  set_option maxRecDepth 1000000 in decide

/-- Claim C12. The code at the 8-bit width: `Integer(int8_t(-1))` prints as the single
character with code 255, not as the text `-1`; and for every value of `uint8_t` and of
`int8_t` the printed text is one character that differs from the decimal numeral of the
stored value. -/
theorem int8_prints_character (F : Format) :
    print F (Integer.ofInt8 (-1)) = ⟨String.singleton (Char.ofNat 255), none⟩ ∧
    (print F (Integer.ofInt8 (-1))).text ≠ "-1" ∧
    (∀ k : Fin 256, (print F (Integer.ofUInt8 (k.val : Int))).text ≠ toString (k.val : Int)) ∧
    (∀ k : Fin 256, (print F (Integer.ofInt8 ((k.val : Int) - 128))).text
      ≠ toString ((k.val : Int) - 128)) ∧
    (∀ is_signed value, (print F (.integer 8 is_signed value)).text.length = 1) := by
  refine ⟨rfl, ?_, ?_, ?_, ?_⟩
  · show String.singleton (Char.ofNat 255) ≠ "-1"
    decide
  · intro k
    exact putChar_ne_numeral_unsigned k
  · intro k
    exact putChar_ne_numeral_signed k
  · intro is_signed value
    cases is_signed <;> rfl

/-- Claim C15. Rendering of textual variants: a String prints as a double quote, its contents
unchanged and a double quote; a Keyword as a colon followed by its name; an Identifier as
its name; none of the three can fail. -/
theorem textual_rendering (F : Format) (c : String) :
    print F (.string c) = ⟨"\"" ++ c ++ "\"", none⟩ ∧
    print F (.keyword c) = ⟨":" ++ c, none⟩ ∧
    print F (.identifier c) = ⟨c, none⟩ := by
  refine ⟨?_, rfl, rfl⟩
  simp [print, Written.andThen, Written.put, String.append_assoc]

/-- Decimal digit characters of the digits 1 to 9 are not the character `0`. -/
theorem digitChar_ne_zero (n : Nat) (h0 : 0 < n) (h : n < 10) : Nat.digitChar n ≠ '0' := by
  interval_cases n <;> decide

/-- First character produced by the digit loop for a positive number is not `0`. -/
theorem toDigitsCore_head (fuel n : Nat) (ds : List Char) (h0 : 0 < n) (hf : n < fuel) :
    (Nat.toDigitsCore 10 fuel n ds).head? ≠ some '0' := by
  induction fuel generalizing n ds with
  | zero => omega
  | succ fuel ih =>
    by_cases hq : n / 10 = 0
    · have hlt : n < 10 := by omega
      have hmod : n % 10 = n := Nat.mod_eq_of_lt hlt
      simp only [Nat.toDigitsCore, hq, if_true, hmod, List.head?_cons]
      intro hc
      exact digitChar_ne_zero n h0 hlt (Option.some.inj hc)
    · simp only [Nat.toDigitsCore, hq, if_false]
      exact ih (n / 10) _ (by omega) (by omega)

/-- Decimal numeral of a positive natural number has no leading zero. -/
theorem numeral_no_leading_zero (n : Nat) (h0 : 0 < n) :
    (toString n).data.head? ≠ some '0' :=
  toDigitsCore_head (n + 1) n [] h0 (by omega)

/-- Numeral of a non-negative integer is the numeral of its magnitude, without sign. -/
theorem numeral_nonneg (x : Int) (h : 0 ≤ x) : toString x = toString x.toNat := by
  cases x with
  | ofNat m => rfl
  | negSucc m => exact absurd h (not_le.mpr (Int.negSucc_lt_zero m))

/-- Numeral of a negative integer is a minus sign followed by the numeral of its magnitude. -/
theorem numeral_neg (x : Int) (h : x < 0) : toString x = "-" ++ toString (-x).toNat := by
  cases x with
  | ofNat m => exact absurd h (not_lt.mpr (Int.ofNat_nonneg m))
  | negSucc m => rfl

/-- Claim C13. Width and signedness fidelity at 16, 32 and 64 bits: such an Integer prints,
without failing, the decimal numeral of the number read at its own width and signedness;
a value inside the range of its type is stored and read back unchanged, so it prints as
its own numeral; an unsigned value never gets a sign, a signed one gets a leading minus
exactly when negative, and the numeral of a non-zero magnitude has no leading zero. -/
theorem integer_width_fidelity (F : Format) (bits : Nat)
    (hb : bits = 16 ∨ bits = 32 ∨ bits = 64) (v : Int) :
    print F (.integer bits true v) = ⟨toString (readSigned bits v), none⟩ ∧
    print F (.integer bits false v) = ⟨toString (readUnsigned bits v), none⟩ ∧
    (-(2 : Int) ^ (bits - 1) ≤ v → v < 2 ^ (bits - 1) →
      print F (.integer bits true (readSigned bits v)) = ⟨toString v, none⟩) ∧
    (0 ≤ v → v < 2 ^ bits →
      print F (.integer bits false (readUnsigned bits v)) = ⟨toString v, none⟩) ∧
    0 ≤ readUnsigned bits v ∧
    (∀ x : Int, 0 ≤ x → toString x = toString x.toNat) ∧
    (∀ x : Int, x < 0 → toString x = "-" ++ toString (-x).toNat) ∧
    (∀ n : Nat, 0 < n → (toString n).data.head? ≠ some '0') := by
  have hs : print F (.integer bits true v) = ⟨toString (readSigned bits v), none⟩ := by
    rcases hb with rfl | rfl | rfl <;> rfl
  have hu : print F (.integer bits false v) = ⟨toString (readUnsigned bits v), none⟩ := by
    rcases hb with rfl | rfl | rfl <;> rfl
  have hs2 : ∀ x, print F (.integer bits true x) = ⟨toString (readSigned bits x), none⟩ := by
    intro x
    rcases hb with rfl | rfl | rfl <;> rfl
  have hu2 : ∀ x, print F (.integer bits false x) = ⟨toString (readUnsigned bits x), none⟩ := by
    intro x
    rcases hb with rfl | rfl | rfl <;> rfl
  refine ⟨hs, hu, ?_, ?_, ?_, numeral_nonneg, numeral_neg, numeral_no_leading_zero⟩
  · intro hlo hhi
    have hr : readSigned bits v = v := by
      rcases hb with rfl | rfl | rfl <;> simp only [readSigned] <;> norm_num at hlo hhi ⊢ <;> omega
    rw [hs2, hr, hr]
  · intro hlo hhi
    have hr : readUnsigned bits v = v := by
      rcases hb with rfl | rfl | rfl <;> simp only [readUnsigned] <;> norm_num at hhi ⊢ <;> omega
    rw [hu2, hr, hr]
  · rcases hb with rfl | rfl | rfl <;> simp only [readUnsigned] <;> omega

theorem integer_width_fidelity_witness :
    print exampleFormat (Integer.ofUInt64 255) = ⟨"255", none⟩ ∧
    print exampleFormat (Integer.ofUInt64 (2 ^ 64 - 1)) = ⟨"18446744073709551615", none⟩ ∧
    print exampleFormat (.integer 64 true (2 ^ 64 - 1)) = ⟨"-1", none⟩ ∧
    print exampleFormat (Integer.ofInt16 (-32768)) = ⟨"-32768", none⟩ :=
  ⟨((integer_width_fidelity exampleFormat 64 (Or.inr (Or.inr rfl)) 255).2.2.2.1
      (by decide) (by decide)).trans rfl,
   ((integer_width_fidelity exampleFormat 64 (Or.inr (Or.inr rfl)) (2 ^ 64 - 1)).2.2.2.1
      (by decide) (by decide)).trans rfl,
   ((integer_width_fidelity exampleFormat 64 (Or.inr (Or.inr rfl)) (2 ^ 64 - 1)).1).trans rfl,
   ((integer_width_fidelity exampleFormat 16 (Or.inl rfl) (-32768)).2.2.1
      (by decide) (by decide)).trans rfl⟩

/-- A sequence of two stream statements completes exactly when both do. -/
theorem Written.andThen_failure_none (a b : Written) :
    (a.andThen b).failure = none ↔ a.failure = none ∧ b.failure = none := by
  unfold Written.andThen
  cases h : a.failure <;> simp

/-- Text of a sequence whose first statement completes. -/
theorem Written.andThen_text (a b : Written) (h : a.failure = none) :
    (a.andThen b).text = a.text ++ b.text := by
  unfold Written.andThen
  simp [h]

/-- A sequence fails as soon as its first statement fails. -/
theorem Written.andThen_failure_left (a b : Written) (h : a.failure ≠ none) :
    (a.andThen b).failure ≠ none := by
  intro hc
  exact h ((Written.andThen_failure_none a b).1 hc).1

/-- The loop over the later elements completes exactly when each element prints. -/
theorem printRest_failure_none (F : Format) (es : List Value) :
    (printRest F es).failure = none ↔ ∀ e ∈ es, (print F e).failure = none := by
  induction es with
  | nil => simp [printRest, Written.put]
  | cons e rest ih =>
    simp only [printRest, Written.andThen_failure_none, ih, List.mem_cons, forall_eq_or_imp,
      Written.put, true_and]

/-- Printing a tuple completes exactly when each element prints. -/
theorem print_tuple_failure_none (F : Format) (es : List Value) :
    (print F (.tuple es)).failure = none ↔ ∀ e ∈ es, (print F e).failure = none := by
  cases es with
  | nil => simp [print, Written.andThen, Written.put]
  | cons e rest =>
    simp only [print, Written.andThen_failure_none, printRest_failure_none, List.mem_cons,
      forall_eq_or_imp, Written.put, true_and, and_true]

/-- Text of the loop over the later elements, appended to what precedes it, is what the
separator-joining of the standard library accumulates. -/
theorem printRest_text (F : Format) (es : List Value) (acc : String)
    (h : ∀ e ∈ es, (print F e).failure = none) :
    acc ++ (printRest F es).text
      = String.intercalate.go acc " " (es.map (fun e => (print F e).text)) := by
  induction es generalizing acc with
  | nil => simp [printRest, Written.put, String.intercalate.go]
  | cons e rest ih =>
    have he : (print F e).failure = none := h e (List.mem_cons_self _ _)
    have hrest : ∀ x ∈ rest, (print F x).failure = none :=
      fun x hx => h x (List.mem_cons_of_mem _ hx)
    simp only [List.map_cons, String.intercalate.go]
    rw [← ih (acc ++ " " ++ (print F e).text) hrest]
    simp only [printRest]
    rw [Written.andThen_text _ _ rfl, Written.andThen_text _ _ he]
    simp [Written.put, String.append_assoc]

/-- Claim C14. Tuple rendering: when every element prints, the tuple prints an opening
parenthesis, the elements' printed forms in order joined by single spaces and a closing
parenthesis, each element (tuples included) rendered by `print` itself; the empty tuple
gives `()`, a one-element tuple has no space; printing the tuple completes exactly when
every element prints, so it fails as soon as one element fails. -/
theorem tuple_rendering (F : Format) (es : List Value) :
    ((∀ e ∈ es, (print F e).failure = none) →
      print F (.tuple es)
        = ⟨"(" ++ " ".intercalate (es.map (fun e => (print F e).text)) ++ ")", none⟩) ∧
    ((∃ e ∈ es, (print F e).failure ≠ none) → (print F (.tuple es)).failure ≠ none) ∧
    print F (.tuple []) = ⟨"()", none⟩ ∧
    (∀ e, (print F e).failure = none →
      print F (.tuple [e]) = ⟨"(" ++ (print F e).text ++ ")", none⟩) := by
  have main : ∀ l : List Value, (∀ e ∈ l, (print F e).failure = none) →
      print F (.tuple l)
        = ⟨"(" ++ " ".intercalate (l.map (fun e => (print F e).text)) ++ ")", none⟩ := by
    intro l h
    have hf := (print_tuple_failure_none F l).2 h
    cases l with
    | nil => rfl
    | cons e rest =>
      have he : (print F e).failure = none := h e (List.mem_cons_self _ _)
      have hrest : ∀ x ∈ rest, (print F x).failure = none :=
        fun x hx => h x (List.mem_cons_of_mem _ hx)
      have hr : (printRest F rest).failure = none := (printRest_failure_none F rest).2 hrest
      have ht : (print F (.tuple (e :: rest))).text
          = "(" ++ " ".intercalate ((e :: rest).map (fun e => (print F e).text)) ++ ")" := by
        simp only [List.map_cons, String.intercalate]
        rw [← printRest_text F rest _ hrest]
        simp only [print]
        rw [Written.andThen_text _ _ rfl, Written.andThen_text _ _ he,
          Written.andThen_text _ _ hr]
        simp [Written.put, String.append_assoc]
      cases hp : print F (.tuple (e :: rest)) with
      | mk text failure =>
        rw [hp] at hf ht
        simp only at hf ht
        rw [hf, ht]
  refine ⟨main es, ?_, rfl, ?_⟩
  · rintro ⟨e, he, hfail⟩ hc
    exact hfail ((print_tuple_failure_none F es).1 hc e he)
  · intro e he
    have := main [e] (by simpa using he)
    simpa [String.intercalate, String.intercalate.go] using this

theorem tuple_rendering_witness :
    print exampleFormat
        (.tuple [.identifier "f", .tuple [Integer.ofInt32 1, .tuple []], .string "s"])
      = ⟨"(f (1 ()) \"s\")", none⟩ ∧
    (print exampleFormat (.tuple [.keyword "k", .integer 7 true 0, .string "s"])).failure
      ≠ none :=
  ⟨((tuple_rendering exampleFormat
        [.identifier "f", .tuple [Integer.ofInt32 1, .tuple []], .string "s"]).1
      (by
        intro e he
        simp only [List.mem_cons, List.mem_singleton, List.not_mem_nil, or_false] at he
        rcases he with rfl | rfl | rfl <;> rfl)).trans rfl,
   (tuple_rendering exampleFormat [.keyword "k", .integer 7 true 0, .string "s"]).2.1
      ⟨.integer 7 true 0, by simp, by
        show (some "Invalid number of bits" : Option Error) ≠ none
        exact Option.some_ne_none _⟩⟩

mutual
/-- Printing a constructor-built value completes. -/
theorem print_constructed (F : Format) :
    ∀ v : Value, v.isConstructed = true → (print F v).failure = none
  | .plain, h => by simp [Value.isConstructed] at h
  | .integer bits is_signed value, h => by
    simp only [Value.isConstructed, Bool.or_eq_true, decide_eq_true_eq] at h
    rcases h with ((rfl | rfl) | rfl) | rfl <;> cases is_signed <;> rfl
  | .floatingPoint bits value, h => by
    simp only [Value.isConstructed, Bool.or_eq_true, decide_eq_true_eq] at h
    rcases h with rfl | rfl <;> rfl
  | .string _, _ => rfl
  | .keyword _, _ => rfl
  | .identifier _, _ => rfl
  | .tuple [], _ => rfl
  | .tuple (e :: rest), h => by
    simp only [Value.isConstructed, Value.areConstructed, Bool.and_eq_true] at h
    simp only [print, Written.andThen_failure_none]
    exact ⟨rfl, print_constructed F e h.1, printRest_constructed F rest h.2, rfl⟩
  | .function _ _, _ => rfl
  | .builtinFunction _ _ _, _ => rfl
/-- The loop over constructor-built later elements completes. -/
theorem printRest_constructed (F : Format) :
    ∀ es : List Value, Value.areConstructed es = true → (printRest F es).failure = none
  | [], _ => rfl
  | e :: rest, h => by
    simp only [Value.areConstructed, Bool.and_eq_true] at h
    simp only [printRest, Written.andThen_failure_none]
    exact ⟨rfl, print_constructed F e h.1, printRest_constructed F rest h.2⟩
end

/-- A list of constructor-built values is constructor-built. -/
theorem areConstructed_of_forall (es : List Value) (h : ∀ e ∈ es, e.isConstructed = true) :
    Value.areConstructed es = true := by
  induction es with
  | nil => rfl
  | cons e rest ih =>
    simp only [Value.areConstructed, Bool.and_eq_true]
    exact ⟨h e (List.mem_cons_self _ _), ih (fun x hx => h x (List.mem_cons_of_mem _ hx))⟩

/-- Claim C16. Print is total on constructed values: every value built by the constructors
prints without failing, so neither `Print not implemented` nor `Invalid number of bits`
is thrown; the eight Integer constructors and the two FloatingPoint constructors only set
the supported width tags, the textual and function classes are always constructor-built,
and a Tuple is when its elements are; conversely an Integer whose width tag is none of 8,
16, 32 and 64 fails to print with `Invalid number of bits` after writing nothing. -/
theorem print_total_on_constructed (F : Format) :
    (∀ v : Value, v.isConstructed = true → (print F v).failure = none) ∧
    (∀ x : Int, (Integer.ofInt8 x).isConstructed = true ∧
      (Integer.ofInt16 x).isConstructed = true ∧ (Integer.ofInt32 x).isConstructed = true ∧
      (Integer.ofInt64 x).isConstructed = true ∧ (Integer.ofUInt8 x).isConstructed = true ∧
      (Integer.ofUInt16 x).isConstructed = true ∧ (Integer.ofUInt32 x).isConstructed = true ∧
      (Integer.ofUInt64 x).isConstructed = true) ∧
    (∀ x : Nat, (FloatingPoint.ofFloat x).isConstructed = true ∧
      (FloatingPoint.ofDouble x).isConstructed = true) ∧
    (∀ (c : String) (name : Identifier) (argument_names : List Identifier) (f : Nat),
      (Value.string c).isConstructed = true ∧ (Value.keyword c).isConstructed = true ∧
      (Value.identifier c).isConstructed = true ∧
      (Value.function name argument_names).isConstructed = true ∧
      (Value.builtinFunction name argument_names f).isConstructed = true) ∧
    (∀ es : List Value, (∀ e ∈ es, e.isConstructed = true) →
      (Value.tuple es).isConstructed = true) ∧
    (∀ (bits : Nat) (is_signed : Bool) (value : Int),
      bits ≠ 8 → bits ≠ 16 → bits ≠ 32 → bits ≠ 64 →
      print F (.integer bits is_signed value) = ⟨"", some "Invalid number of bits"⟩) ∧
    print F .plain = ⟨"", some "Print not implemented"⟩ := by
  refine ⟨print_constructed F, ?_, ?_, ?_, ?_, ?_, rfl⟩
  · intro x
    exact ⟨rfl, rfl, rfl, rfl, rfl, rfl, rfl, rfl⟩
  · intro x
    exact ⟨rfl, rfl⟩
  · intro c name argument_names f
    exact ⟨rfl, rfl, rfl, rfl, rfl⟩
  · intro es h
    simp only [Value.isConstructed]
    exact areConstructed_of_forall es h
  · intro bits is_signed value h8 h16 h32 h64
    cases is_signed <;> simp [print, h8, h16, h32, h64, Written.raise]

theorem print_total_on_constructed_witness :
    (print exampleFormat
        (.tuple [Integer.ofInt8 (-1), FloatingPoint.ofDouble 0, .tuple [printValue]])).failure
      = none ∧
    print exampleFormat (.integer 7 true 1) = ⟨"", some "Invalid number of bits"⟩ :=
  ⟨(print_total_on_constructed exampleFormat).1 _ rfl,
   (print_total_on_constructed exampleFormat).2.2.2.2.2.1 7 true 1
      (by decide) (by decide) (by decide) (by decide)⟩

/-! ## Evaluation under the reference host -/

/-- Claim C17, as the code has it. A bare Function is not in normal form: among the classes
derived from `Atom`, `evaluate` returns the value itself exactly for Integer, FloatingPoint,
String, Keyword and BuiltinFunction; for a bare Function it fails with
`Evaluate not implemented` in every scope and at every depth bound, and never succeeds. -/
theorem atom_normal_forms (H : Host) (depth : Nat) (v : Value) (w : World)
    (hv : v.isAtom = true) :
    (evaluate H depth v w = some (.ok (.owned v), w) ↔ v.copiesItself = true) ∧
    (v.copiesItself = false →
      (∃ name argument_names, v = .function name argument_names) ∧
      evaluate H depth v w = some (.error "Evaluate not implemented", w) ∧
      ¬ ∃ r w1, evaluate H depth v w = some (.ok r, w1)) := by
  cases v with
  | plain => simp [Value.isAtom] at hv
  | identifier name => simp [Value.isAtom] at hv
  | tuple elements => simp [Value.isAtom] at hv
  | integer bits is_signed value => simp [evaluate, Value.copiesItself]
  | floatingPoint bits value => simp [evaluate, Value.copiesItself]
  | string contents => simp [evaluate, Value.copiesItself]
  | keyword name => simp [evaluate, Value.copiesItself]
  | builtinFunction name argument_names f => simp [evaluate, Value.copiesItself]
  | function name argument_names => simp [evaluate, Value.copiesItself]

theorem atom_normal_forms_witness :
    evaluate (mainHost exampleFormat) 0 (.function ⟨"f"⟩ [⟨"x"⟩]) ⟨root_scope, ""⟩
      = some (.error "Evaluate not implemented", ⟨root_scope, ""⟩) ∧
    (evaluate (mainHost exampleFormat) 0 printValue ⟨root_scope, ""⟩
      = some (.ok (.owned printValue), ⟨root_scope, ""⟩)) :=
  ⟨((atom_normal_forms (mainHost exampleFormat) 0 (.function ⟨"f"⟩ [⟨"x"⟩])
      ⟨root_scope, ""⟩ rfl).2 rfl).2.1,
   (atom_normal_forms (mainHost exampleFormat) 0 printValue ⟨root_scope, ""⟩ rfl).1.2 rfl⟩

/-- The claim that a bare Function evaluates to itself fails on the code: the Function `f`
does not evaluate to any value in the root scope of `main`. -/
theorem function_identity_counterexample :
    ¬ ∃ r w1, evaluate (mainHost exampleFormat) 0 (.function ⟨"f"⟩ [⟨"x"⟩]) ⟨root_scope, ""⟩
      = some (.ok r, w1) := by
  simp [evaluate]

/-- A successful lookup found its value in a scope of the chain. -/
theorem Scope.lookup_mem_chain (s : Scope) (n : String) (v : Value)
    (h : s.lookup n = some v) : ∃ t ∈ s.chain, Bindings.find n t.bindings = some v := by
  rw [Scope.lookup_eq_findSome] at h
  obtain ⟨nearer, t, farther, hsplit, hfind, _⟩ := List.findSome?_eq_some_iff.1 h
  exact ⟨t, by rw [hsplit]; simp, hfind⟩

/-- Every handle of the host of `main` is the `print` lambda, whatever the scope binds. -/
theorem mainHost_callablesArePrint (F : Format) (s : Scope) :
    s.callablesArePrint (mainHost F) :=
  fun _ _ _ _ _ _ _ => rfl

/-- An element of a list is nested no deeper than the list. -/
theorem Value.nesting_le_of_mem (es : List Value) (a : Value) (h : a ∈ es) :
    a.nesting ≤ Value.nestingOfList es := by
  induction es with
  | nil => cases h
  | cons e rest ih =>
    simp only [Value.nestingOfList]
    rcases List.mem_cons.1 h with rfl | hm
    · exact le_max_left _ _
    · exact le_trans (ih hm) (le_max_right _ _)

/-- Builtins of an element of a list are builtins of the list. -/
theorem Value.builtinsArePrint_of_mem (H : Host) (es : List Value) (a : Value) (h : a ∈ es)
    (hes : Value.allBuiltinsArePrint H es) : a.builtinsArePrint H := by
  induction es with
  | nil => cases h
  | cons e rest ih =>
    simp only [Value.allBuiltinsArePrint] at hes
    rcases List.mem_cons.1 h with rfl | hm
    · exact hes.1
    · exact ih hm hes.2

/-- A thrown message is not a returned builtin. -/
theorem Host.returnsPrint_error (H : Host) (e : Error) : H.returnsPrint (.error e) := by
  intro _ _ _ hc
  cases hc

/-- An abort is not a returned builtin. -/
theorem Host.returnsPrint_abort (H : Host) : H.returnsPrint .abort := by
  intro _ _ _ hc
  cases hc

/-- A returned reference to something that is not a builtin is not a returned builtin. -/
theorem Host.returnsPrint_ok (H : Host) (r : Reference) (hr : r.value.isBuiltinFunction = false) :
    H.returnsPrint (.ok r) := by
  intro _ _ _ hc
  cases hc
  simp [Reference.value, Value.isBuiltinFunction] at hr

/-- Releasing a local does not make the result a builtin other than `print`. -/
theorem Host.returnsPrint_release (H : Host) (r : Reference) (o : Outcome)
    (h : H.returnsPrint o.1) : H.returnsPrint (release r o).1 := by
  rcases release_result r o with hr | hr
  · rw [hr]; exact h
  · rw [hr]; exact H.returnsPrint_abort

/-- Evaluation of anything but a non-empty tuple returns at once, changes nothing, and
returns a builtin only if it was bound in the scope chain or is the expression itself. -/
theorem evaluate_flat (H : Host) (d : Nat) (e : Value) (w : World)
    (hflat : ∀ first rest, e ≠ .tuple (first :: rest))
    (hs : w.scope.callablesArePrint H) (he : e.builtinsArePrint H) :
    ∃ r, evaluate H d e w = some (r, w) ∧ H.returnsPrint r ∧
      evaluate H (d + 1) e w = evaluate H d e w := by
  cases e with
  | plain =>
    exact ⟨.error "Evaluate not implemented", by simp only [evaluate],
      H.returnsPrint_error _, by simp only [evaluate]⟩
  | integer bits is_signed value =>
    exact ⟨.ok (.owned (.integer bits is_signed value)), by simp only [evaluate],
      H.returnsPrint_ok _ rfl, by simp only [evaluate]⟩
  | floatingPoint bits value =>
    exact ⟨.ok (.owned (.floatingPoint bits value)), by simp only [evaluate],
      H.returnsPrint_ok _ rfl, by simp only [evaluate]⟩
  | string contents =>
    exact ⟨.ok (.owned (.string contents)), by simp only [evaluate],
      H.returnsPrint_ok _ rfl, by simp only [evaluate]⟩
  | keyword name =>
    exact ⟨.ok (.owned (.keyword name)), by simp only [evaluate],
      H.returnsPrint_ok _ rfl, by simp only [evaluate]⟩
  | function name argument_names =>
    exact ⟨.error "Evaluate not implemented", by simp only [evaluate],
      H.returnsPrint_error _, by simp only [evaluate]⟩
  | builtinFunction name argument_names f =>
    refine ⟨.ok (.owned (.builtinFunction name argument_names f)), by simp only [evaluate],
      ?_, by simp only [evaluate]⟩
    intro _ _ _ hc
    cases hc
    simpa only [Value.builtinsArePrint] using he
  | identifier name =>
    cases hl : w.scope.lookup name with
    | none =>
      exact ⟨.error ("Undefined identifier \"" ++ (print H.format (.identifier name)).text
          ++ "\""), by simp only [evaluate, hl], H.returnsPrint_error _,
        by simp only [evaluate]⟩
    | some value =>
      refine ⟨.ok (.owned value), by simp only [evaluate, hl], ?_, by simp only [evaluate]⟩
      intro nm ps f hc
      cases hc
      obtain ⟨t, ht, hfind⟩ := Scope.lookup_mem_chain _ _ _ hl
      exact hs t ht name nm ps f hfind
  | tuple elements =>
    cases elements with
    | nil =>
      exact ⟨.ok .thisEmptyTuple, by simp only [evaluate], H.returnsPrint_ok _ rfl,
        by simp only [evaluate]⟩
    | cons first rest => exact absurd rfl (hflat first rest)

/-- What the `print` lambda leaves behind, given what the evaluator it calls leaves
behind: the scope unchanged, the output extended, and never a builtin as result. -/
theorem printBuiltin_frame (F : Format) (ev : Evaluator) (arguments : List Value)
    (w w1 : World) (r : Result Reference)
    (hev : ∀ a ∈ arguments, ∀ r2 w2, ev a w = some (r2, w2) →
      w2.scope = w.scope ∧ ∃ out, w2.cout = w.cout ++ out)
    (h : printBuiltin F ev arguments w = some (r, w1)) :
    w1.scope = w.scope ∧ (∃ out, w1.cout = w.cout ++ out) ∧
      ∀ name argument_names f, r ≠ .ok (.owned (.builtinFunction name argument_names f)) := by
  match arguments, hev, h with
  | [], _, h =>
    simp only [printBuiltin, Option.some.injEq, Prod.mk.injEq] at h
    obtain ⟨rfl, rfl⟩ := h
    exact ⟨rfl, ⟨"", by simp⟩, fun _ _ _ hc => by cases hc⟩
  | _ :: _ :: _, _, h =>
    simp only [printBuiltin, Option.some.injEq, Prod.mk.injEq] at h
    obtain ⟨rfl, rfl⟩ := h
    exact ⟨rfl, ⟨"", by simp⟩, fun _ _ _ hc => by cases hc⟩
  | [a], hev, h =>
    simp only [printBuiltin] at h
    cases ha : ev a w with
    | none => simp [ha] at h
    | some o =>
      obtain ⟨r2, w2⟩ := o
      obtain ⟨hsc, out, hout⟩ := hev a (List.mem_singleton.2 rfl) r2 w2 ha
      cases r2 with
      | error e2 =>
        simp only [ha, Option.some.injEq, Prod.mk.injEq] at h
        obtain ⟨rfl, rfl⟩ := h
        exact ⟨hsc, ⟨out, hout⟩, fun _ _ _ hc => by cases hc⟩
      | abort =>
        simp only [ha, Option.some.injEq, Prod.mk.injEq] at h
        obtain ⟨rfl, rfl⟩ := h
        exact ⟨hsc, ⟨out, hout⟩, fun _ _ _ hc => by cases hc⟩
      | ok v =>
        simp only [ha] at h
        cases hp : (print F v.value).failure with
        | none =>
          simp only [hp, Option.some.injEq] at h
          cases v with
          | owned x =>
            simp only [release, Prod.mk.injEq] at h
            obtain ⟨rfl, rfl⟩ := h
            exact ⟨hsc, ⟨out ++ (print F (Reference.owned x).value).text ++ "\n",
              by simp [hout, String.append_assoc]⟩, fun _ _ _ hc => by cases hc⟩
          | thisEmptyTuple =>
            simp only [release, Prod.mk.injEq] at h
            obtain ⟨rfl, rfl⟩ := h
            exact ⟨hsc, ⟨out ++ (print F Reference.thisEmptyTuple.value).text ++ "\n",
              by simp [hout, String.append_assoc]⟩, fun _ _ _ hc => by cases hc⟩
        | some e2 =>
          simp only [hp, Option.some.injEq] at h
          cases v with
          | owned x =>
            simp only [release, Prod.mk.injEq] at h
            obtain ⟨rfl, rfl⟩ := h
            exact ⟨hsc, ⟨out ++ (print F (Reference.owned x).value).text,
              by simp [hout, String.append_assoc]⟩, fun _ _ _ hc => by cases hc⟩
          | thisEmptyTuple =>
            simp only [release, Prod.mk.injEq] at h
            obtain ⟨rfl, rfl⟩ := h
            exact ⟨hsc, ⟨out ++ (print F Reference.thisEmptyTuple.value).text,
              by simp [hout, String.append_assoc]⟩, fun _ _ _ hc => by cases hc⟩

/-- The `print` lambda ends when the evaluator ends on its arguments. -/
theorem printBuiltin_returns (F : Format) (ev : Evaluator) (arguments : List Value) (w : World)
    (hev : ∀ a ∈ arguments, ∃ o, ev a w = some o) :
    ∃ o, printBuiltin F ev arguments w = some o := by
  match arguments, hev with
  | [], _ => exact ⟨_, rfl⟩
  | _ :: _ :: _, _ => exact ⟨_, rfl⟩
  | [a], hev =>
    obtain ⟨⟨r2, w2⟩, ha⟩ := hev a (List.mem_singleton.2 rfl)
    simp only [printBuiltin, ha]
    cases r2 with
    | error e2 => exact ⟨_, rfl⟩
    | abort => exact ⟨_, rfl⟩
    | ok v =>
      cases hp : (print F v.value).failure with
      | none =>
        simp only [hp]
        exact ⟨_, rfl⟩
      | some e2 =>
        simp only [hp]
        exact ⟨_, rfl⟩

/-- The `print` lambda depends on the evaluator only through its arguments. -/
theorem printBuiltin_congr (F : Format) (ev1 ev2 : Evaluator) (arguments : List Value)
    (w : World) (hev : ∀ a ∈ arguments, ev1 a w = ev2 a w) :
    printBuiltin F ev1 arguments w = printBuiltin F ev2 arguments w := by
  match arguments, hev with
  | [], _ => rfl
  | _ :: _ :: _, _ => rfl
  | [a], hev =>
    simp only [printBuiltin, hev a (List.mem_singleton.2 rfl)]

/-- What a call leaves behind when every builtin is `print`: the scope unchanged, the
output extended, and a result that is not a builtin other than `print`. -/
theorem call_frame (H : Host) (ev : Evaluator) (f : Value) (arguments : List Value)
    (w w1 : World) (r : Result Reference) (hf : H.returnsPrint (.ok (.owned f)))
    (hev : ∀ a ∈ arguments, ∀ r2 w2, ev a w = some (r2, w2) →
      w2.scope = w.scope ∧ ∃ out, w2.cout = w.cout ++ out)
    (h : call H ev f arguments w = some (r, w1)) :
    w1.scope = w.scope ∧ (∃ out, w1.cout = w.cout ++ out) ∧ H.returnsPrint r := by
  cases f with
  | builtinFunction name argument_names k =>
    simp only [call] at h
    rw [hf name argument_names k rfl] at h
    obtain ⟨hsc, hout, hne⟩ := printBuiltin_frame H.format ev arguments w w1 r hev h
    exact ⟨hsc, hout, fun n p j hc => absurd hc (hne n p j)⟩
  | _ =>
    simp only [call, Option.some.injEq, Prod.mk.injEq] at h
    obtain ⟨rfl, rfl⟩ := h
    exact ⟨rfl, ⟨"", by simp⟩, H.returnsPrint_error _⟩

/-- A reference whose result may only be the `print` builtin points to a value of which the
same holds. -/
theorem Host.returnsPrint_value (H : Host) (f : Reference) (h : H.returnsPrint (.ok f)) :
    H.returnsPrint (.ok (.owned f.value)) := by
  cases f with
  | owned v => exact h
  | thisEmptyTuple => exact H.returnsPrint_ok _ rfl

/-- When every builtin is `print`, an evaluation that ends leaves the scope unchanged,
only extends the output, and returns no builtin other than `print`. -/
theorem evaluate_frame (H : Host) :
    ∀ (d : Nat) (e : Value) (w : World) (r : Result Reference) (w1 : World),
      w.scope.callablesArePrint H → e.builtinsArePrint H →
      evaluate H d e w = some (r, w1) →
      w1.scope = w.scope ∧ (∃ out, w1.cout = w.cout ++ out) ∧ H.returnsPrint r := by
  intro d
  induction d with
  | zero =>
    intro e w r w1 hs he h
    by_cases hflat : ∀ first rest, e ≠ .tuple (first :: rest)
    · obtain ⟨r0, h0, hr0, _⟩ := evaluate_flat H 0 e w hflat hs he
      rw [h0] at h
      cases h
      exact ⟨rfl, ⟨"", by simp⟩, hr0⟩
    · push_neg at hflat
      obtain ⟨first, rest, rfl⟩ := hflat
      simp [evaluate] at h
  | succ d ih =>
    intro e w r w1 hs he h
    by_cases hflat : ∀ first rest, e ≠ .tuple (first :: rest)
    · obtain ⟨r0, h0, hr0, _⟩ := evaluate_flat H (d + 1) e w hflat hs he
      rw [h0] at h
      cases h
      exact ⟨rfl, ⟨"", by simp⟩, hr0⟩
    · push_neg at hflat
      obtain ⟨first, rest, rfl⟩ := hflat
      simp only [Value.builtinsArePrint, Value.allBuiltinsArePrint] at he
      simp only [evaluate] at h
      cases h1 : evaluate H d first w with
      | none => simp [h1] at h
      | some o =>
        obtain ⟨r1, w2⟩ := o
        obtain ⟨hsc1, ⟨out1, hout1⟩, hret1⟩ := ih first w r1 w2 hs he.1 h1
        cases r1 with
        | error e1 =>
          simp only [h1, Option.some.injEq, Prod.mk.injEq] at h
          obtain ⟨rfl, rfl⟩ := h
          exact ⟨hsc1, ⟨out1, hout1⟩, H.returnsPrint_error _⟩
        | abort =>
          simp only [h1, Option.some.injEq, Prod.mk.injEq] at h
          obtain ⟨rfl, rfl⟩ := h
          exact ⟨hsc1, ⟨out1, hout1⟩, H.returnsPrint_abort⟩
        | ok f =>
          simp only [h1] at h
          have hs2 : w2.scope.callablesArePrint H := by rw [hsc1]; exact hs
          cases hc : call H (evaluate H d) f.value rest w2 with
          | none => simp [hc] at h
          | some o2 =>
            obtain ⟨r3, w3⟩ := o2
            rw [hc] at h
            simp only [Option.map_some', Option.some.injEq] at h
            obtain ⟨hsc2, ⟨out2, hout2⟩, hret2⟩ :=
              call_frame H (evaluate H d) f.value rest w2 w3 r3 (H.returnsPrint_value f hret1)
                (fun a ha r2 w4 h4 =>
                  let t := ih a w2 r2 w4 hs2 (Value.builtinsArePrint_of_mem H rest a ha he.2) h4
                  ⟨t.1, t.2.1⟩) hc
            have hw : w1 = w3 := by
              have := release_world f (r3, w3)
              rw [h] at this
              exact this
            have hr : H.returnsPrint r := by
              have := H.returnsPrint_release f (r3, w3) hret2
              rw [h] at this
              exact this
            subst hw
            exact ⟨hsc2.trans hsc1,
              ⟨out1 ++ out2, by rw [hout2, hout1, String.append_assoc]⟩, hr⟩

/-- When every builtin is `print`, evaluation ends within a depth bound equal to the
nesting depth of the expression. -/
theorem evaluate_returns (H : Host) :
    ∀ (d : Nat) (e : Value) (w : World),
      w.scope.callablesArePrint H → e.builtinsArePrint H → e.nesting ≤ d →
      ∃ o, evaluate H d e w = some o := by
  intro d
  induction d with
  | zero =>
    intro e w hs he hn
    by_cases hflat : ∀ first rest, e ≠ .tuple (first :: rest)
    · obtain ⟨r0, h0, _, _⟩ := evaluate_flat H 0 e w hflat hs he
      exact ⟨_, h0⟩
    · push_neg at hflat
      obtain ⟨first, rest, rfl⟩ := hflat
      simp [Value.nesting] at hn
  | succ d ih =>
    intro e w hs he hn
    by_cases hflat : ∀ first rest, e ≠ .tuple (first :: rest)
    · obtain ⟨r0, h0, _, _⟩ := evaluate_flat H (d + 1) e w hflat hs he
      exact ⟨_, h0⟩
    · push_neg at hflat
      obtain ⟨first, rest, rfl⟩ := hflat
      simp only [Value.builtinsArePrint, Value.allBuiltinsArePrint] at he
      simp only [Value.nesting, Value.nestingOfList, Nat.add_le_add_iff_right, max_le_iff] at hn
      obtain ⟨⟨r1, w2⟩, h1⟩ := ih first w hs he.1 hn.1
      obtain ⟨hsc1, _, hret1⟩ := evaluate_frame H d first w r1 w2 hs he.1 h1
      simp only [evaluate, h1]
      cases r1 with
      | error e1 => exact ⟨_, rfl⟩
      | abort => exact ⟨_, rfl⟩
      | ok f =>
        have hs2 : w2.scope.callablesArePrint H := by rw [hsc1]; exact hs
        have hcall : ∃ o, call H (evaluate H d) f.value rest w2 = some o := by
          cases hv : f.value with
          | builtinFunction name argument_names k =>
            simp only [call]
            rw [H.returnsPrint_value f hret1 name argument_names k (by rw [hv])]
            exact printBuiltin_returns H.format _ rest w2 (fun a ha =>
              ih a w2 hs2 (Value.builtinsArePrint_of_mem H rest a ha he.2)
                (le_trans (Value.nesting_le_of_mem rest a ha) hn.2))
          | _ => exact ⟨_, rfl⟩
        obtain ⟨o, ho⟩ := hcall
        exact ⟨release f o, by simp only [ho, Option.map_some']⟩

/-- When every builtin is `print`, a depth bound beyond the nesting depth of the
expression does not change the outcome. -/
theorem evaluate_stable (H : Host) :
    ∀ (d : Nat) (e : Value) (w : World),
      w.scope.callablesArePrint H → e.builtinsArePrint H → e.nesting ≤ d →
      evaluate H (d + 1) e w = evaluate H d e w := by
  intro d
  induction d with
  | zero =>
    intro e w hs he hn
    by_cases hflat : ∀ first rest, e ≠ .tuple (first :: rest)
    · exact (evaluate_flat H 0 e w hflat hs he).choose_spec.2.2
    · push_neg at hflat
      obtain ⟨first, rest, rfl⟩ := hflat
      simp [Value.nesting] at hn
  | succ d ih =>
    intro e w hs he hn
    by_cases hflat : ∀ first rest, e ≠ .tuple (first :: rest)
    · exact (evaluate_flat H (d + 1) e w hflat hs he).choose_spec.2.2
    · push_neg at hflat
      obtain ⟨first, rest, rfl⟩ := hflat
      simp only [Value.builtinsArePrint, Value.allBuiltinsArePrint] at he
      simp only [Value.nesting, Value.nestingOfList, Nat.add_le_add_iff_right, max_le_iff] at hn
      simp only [evaluate]
      rw [ih first w hs he.1 hn.1]
      cases h1 : evaluate H d first w with
      | none => rfl
      | some o =>
        obtain ⟨r1, w2⟩ := o
        obtain ⟨hsc1, _, hret1⟩ := evaluate_frame H d first w r1 w2 hs he.1 h1
        cases r1 with
        | error e1 => rfl
        | abort => rfl
        | ok f =>
          have hs2 : w2.scope.callablesArePrint H := by rw [hsc1]; exact hs
          have hcall : call H (evaluate H (d + 1)) f.value rest w2
              = call H (evaluate H d) f.value rest w2 := by
            cases hv : f.value with
            | builtinFunction name argument_names k =>
              simp only [call]
              rw [H.returnsPrint_value f hret1 name argument_names k (by rw [hv])]
              exact printBuiltin_congr H.format _ _ rest w2 (fun a ha =>
                ih a w2 hs2 (Value.builtinsArePrint_of_mem H rest a ha he.2)
                  (le_trans (Value.nesting_le_of_mem rest a ha) hn.2))
            | _ => rfl
          simp only [hcall]

mutual
/-- Under the host of `main` every builtin in an expression tree is `print`. -/
theorem mainHost_builtinsArePrint (F : Format) :
    ∀ e : Value, e.builtinsArePrint (mainHost F)
  | .plain => trivial
  | .integer _ _ _ => trivial
  | .floatingPoint _ _ => trivial
  | .string _ => trivial
  | .keyword _ => trivial
  | .identifier _ => trivial
  | .tuple es => by
    simp only [Value.builtinsArePrint]
    exact mainHost_allBuiltinsArePrint F es
  | .function _ _ => trivial
  | .builtinFunction _ _ _ => by
    simp only [Value.builtinsArePrint]
    rfl
/-- Under the host of `main` every builtin in a list of expression trees is `print`. -/
theorem mainHost_allBuiltinsArePrint (F : Format) :
    ∀ es : List Value, Value.allBuiltinsArePrint (mainHost F) es
  | [] => trivial
  | e :: rest => ⟨mainHost_builtinsArePrint F e, mainHost_allBuiltinsArePrint F rest⟩
end

/-- When every builtin is `print`, all depth bounds from the nesting depth of the
expression on give one and the same outcome, which leaves the scope as it was and only
extends the output. -/
theorem evaluate_outcome (H : Host) (e : Value) (w : World)
    (hs : w.scope.callablesArePrint H) (he : e.builtinsArePrint H) :
    ∃ r out, ∀ d, e.nesting ≤ d →
      evaluate H d e w = some (r, ⟨w.scope, w.cout ++ out⟩) := by
  obtain ⟨⟨r, w1⟩, h0⟩ := evaluate_returns H e.nesting e w hs he le_rfl
  obtain ⟨hsc, ⟨out, hout⟩, _⟩ := evaluate_frame H e.nesting e w r w1 hs he h0
  have hw : w1 = ⟨w.scope, w.cout ++ out⟩ := by
    cases w1
    simp only at hsc hout
    rw [hsc, hout]
  refine ⟨r, out, ?_⟩
  intro d hd
  induction d, hd using Nat.le_induction with
  | base => rw [h0, hw]
  | succ d hd ih => rw [evaluate_stable H d e w hs he hd, ih]

/-- Claim C18. The code on termination: when the only callable bound in the scope chain and
the only builtin in the expression tree is `print`, evaluation ends with one definite
outcome for every depth bound from the nesting depth of the expression on, so it never
nests deeper than the expression does, whatever the scope binds; under the host of `main`
this holds for every expression and scope; and a lookup is a single pass over the finite
chain of scopes.  But the outcome is not always a value or a failure: `(print ())`, of
nesting depth 2, in the root scope of `main` writes `()` and is aborted by the release of
the second owner that the empty tuple evaluated to. -/
theorem evaluation_terminates :
    (∀ (H : Host) (e : Value) (w : World),
      w.scope.callablesArePrint H → e.builtinsArePrint H →
      ∃ r out, ∀ d, e.nesting ≤ d →
        evaluate H d e w = some (r, ⟨w.scope, w.cout ++ out⟩)) ∧
    (∀ (F : Format) (e : Value) (w : World),
      ∃ r out, ∀ d, e.nesting ≤ d →
        evaluate (mainHost F) d e w = some (r, ⟨w.scope, w.cout ++ out⟩)) ∧
    (∀ (s : Scope) (n : String),
      s.lookup n = s.chain.findSome? (fun t => Bindings.find n t.bindings)) ∧
    printEmpty.nesting = 2 ∧
    (∀ (F : Format) (d : Nat), printEmpty.nesting ≤ d →
      evaluate (mainHost F) d printEmpty ⟨root_scope, ""⟩
        = some (.abort, ⟨root_scope, "()\n"⟩)) := by
  refine ⟨evaluate_outcome, ?_, fun s n => Scope.lookup_eq_findSome n s, rfl, ?_⟩
  · intro F e w
    exact evaluate_outcome (mainHost F) e w (mainHost_callablesArePrint F w.scope)
      (mainHost_builtinsArePrint F e)
  · intro F d hd
    cases d with
    | zero => exact absurd hd (by decide)
    | succ k => exact evaluate_printEmpty F k ""

theorem evaluation_terminates_witness :
    (∃ r out, ∀ d, printTwice.nesting ≤ d →
      evaluate (mainHost exampleFormat) d printTwice ⟨root_scope, ""⟩
        = some (r, ⟨root_scope, "" ++ out⟩)) ∧
    printTwice.nesting = 2 ∧
    evaluate (mainHost exampleFormat) 2 printTwice ⟨root_scope, ""⟩
      = some (.ok (.owned (.tuple [])), ⟨root_scope, "\"a\"\n()\n"⟩) ∧
    evaluate (mainHost exampleFormat) 1 printTwice ⟨root_scope, ""⟩ = none ∧
    evaluate (mainHost exampleFormat) 2 printEmpty ⟨root_scope, ""⟩
      = some (.abort, ⟨root_scope, "()\n"⟩) :=
  ⟨evaluation_terminates.1 (mainHost exampleFormat) printTwice ⟨root_scope, ""⟩
      (mainHost_callablesArePrint exampleFormat root_scope)
      ⟨rfl, ⟨trivial, trivial, trivial⟩, trivial⟩,
   rfl, rfl, rfl,
   evaluation_terminates.2.2.2.2 exampleFormat 2 (by decide)⟩

/-- In the root scope of `main` the only callable bound is `print`, also under the host of
the scope-change example. -/
theorem root_scope_callablesArePrint_bindHost : root_scope.callablesArePrint bindHost := by
  intro t ht n name argument_names f hfind
  have ht2 : t = root_scope := by
    simpa [Scope.chain, root_scope, Scope.bind, Scope.ancestors] using ht
  rw [ht2] at hfind
  simp only [root_scope, Scope.bind, Scope.bindings, Bindings.assign, Bindings.find,
    printValue] at hfind
  split at hfind
  · simp only [Option.some.injEq, Value.builtinFunction.injEq] at hfind
    obtain ⟨_, _, rfl⟩ := hfind
    rfl
  · cases hfind

/-- The claim that evaluation never changes a scope whose only callable binding is `print`
fails for an expression that holds another builtin: under a host with a binding builtin,
the root scope of `main` binds only `print`, yet evaluating the tuple whose head is that
builtin succeeds and leaves a scope in which the lookup of `y` answers differently. -/
theorem scope_change_counterexample :
    root_scope.callablesArePrint bindHost ∧
    root_scope.bindings = [("print", printValue)] ∧
    ¬ ∀ (e : Value) (d : Nat) (r : Result Reference) (w1 : World),
        evaluate bindHost d e ⟨root_scope, ""⟩ = some (r, w1) →
        ∀ n, w1.scope.lookup n = root_scope.lookup n := by
  refine ⟨root_scope_callablesArePrint_bindHost, rfl, ?_⟩
  intro h
  have hy := h bindLiteral 1 (.ok (.owned (.tuple [])))
    ⟨root_scope.bind "y" (.string "s"), ""⟩ rfl "y"
  have h1 : (root_scope.bind "y" (.string "s")).lookup "y" = some (.string "s") := rfl
  have h2 : root_scope.lookup "y" = none := rfl
  rw [h1, h2] at hy
  cases hy

/-- Claim C19, as the code has it. Evaluation is read-only on scopes: when the only callable
bound in the scope chain is `print` and every builtin in the expression tree is `print`,
every evaluation that ends, with a value, with a failure or with an abort, leaves the
scope and with it its ancestors exactly as they were, so every lookup answers as before,
and changes the output only by appending to it; and the evaluation does end.  Under the
host of `main`, whose only function is `print`, this holds for every expression and
scope. -/
theorem evaluation_reads_scope_only :
    (∀ (H : Host) (e : Value) (w : World),
      w.scope.callablesArePrint H → e.builtinsArePrint H →
      (∀ d r w1, evaluate H d e w = some (r, w1) →
        w1.scope = w.scope ∧ w1.scope.ancestors = w.scope.ancestors ∧
        (∀ n, w1.scope.lookup n = w.scope.lookup n) ∧
        ∃ out, w1.cout = w.cout ++ out) ∧
      (∃ r w1, evaluate H e.nesting e w = some (r, w1))) ∧
    (∀ (F : Format) (e : Value) (w : World),
      (∀ d r w1, evaluate (mainHost F) d e w = some (r, w1) →
        w1.scope = w.scope ∧ w1.scope.ancestors = w.scope.ancestors ∧
        (∀ n, w1.scope.lookup n = w.scope.lookup n) ∧
        ∃ out, w1.cout = w.cout ++ out) ∧
      (∃ r w1, evaluate (mainHost F) e.nesting e w = some (r, w1))) := by
  have general : ∀ (H : Host) (e : Value) (w : World),
      w.scope.callablesArePrint H → e.builtinsArePrint H →
      (∀ d r w1, evaluate H d e w = some (r, w1) →
        w1.scope = w.scope ∧ w1.scope.ancestors = w.scope.ancestors ∧
        (∀ n, w1.scope.lookup n = w.scope.lookup n) ∧
        ∃ out, w1.cout = w.cout ++ out) ∧
      (∃ r w1, evaluate H e.nesting e w = some (r, w1)) := by
    intro H e w hs he
    constructor
    · intro d r w1 h
      obtain ⟨hsc, hout, _⟩ := evaluate_frame H d e w r w1 hs he h
      exact ⟨hsc, by rw [hsc], fun n => by rw [hsc], hout⟩
    · obtain ⟨⟨r, w1⟩, h0⟩ := evaluate_returns H e.nesting e w hs he le_rfl
      exact ⟨r, w1, h0⟩
  refine ⟨general, ?_⟩
  intro F e w
  exact general (mainHost F) e w (mainHost_callablesArePrint F w.scope)
    (mainHost_builtinsArePrint F e)

theorem evaluation_reads_scope_only_witness :
    (∀ d r w1, evaluate bindHost d printThenCall ⟨root_scope, ""⟩ = some (r, w1) →
      w1.scope = root_scope ∧ w1.scope.ancestors = root_scope.ancestors ∧
      (∀ n, w1.scope.lookup n = root_scope.lookup n) ∧
      ∃ out, w1.cout = "" ++ out) ∧
    evaluate bindHost 2 printThenCall ⟨root_scope, ""⟩
      = some (.error "Not callable", ⟨root_scope, "\"a\"\n"⟩) :=
  ⟨(evaluation_reads_scope_only.1 bindHost printThenCall ⟨root_scope, ""⟩
      root_scope_callablesArePrint_bindHost
      ⟨⟨trivial, trivial, trivial⟩, trivial⟩).1,
   rfl⟩

end ctxlang
